import Mathlib

/-!
# Push-consumer coordinator of metro: a shallow embedding

Sources embedded here:

* `service/push-consumer/service.go`: `NewService`, `Service.Start`, `Service.Stop`,
  `Service.lead`, `Service.stepDown`;
* `internal/health/model.go`: `brokerHealthChecker.checkHealth`.

Goroutines are modelled by program counters and an interleaving step function: one
action is one atomic step of one goroutine (or of an external collaborator), and a
schedule is a list of actions.  The library primitives the code calls
(`errgroup.Group`, channels, `context.WithDeadline`) are embedded with their documented
Go behaviour.  The registry, its watchers and the election candidate are external
collaborators: their results are arguments of the actions.  Instants and durations are
integers of nanoseconds.

There are four step functions:

* `LeadState.step`: a leadership session under an election layer that invokes
  `OnStartedLeading` and `OnStoppedLeading` one at a time, `lead` being one step;
* `HandoffState.step`: the same session with no such serialisation, `lead` taken
  statement by statement and `stepDown` callable in between;
* `TopState.step`: one call of `Start`, with `Stop` callable at any time.  The `Go` calls
  of `Start` are taken together with its first statements: nothing reads the counter of
  `c.workgrp` before `Start` itself calls `Wait`;
* `TopState.hostStep`: the same with `Start` callable again after it has returned.
-/

namespace Metro

/-! ## Go values shared by the models -/

/-- A non-nil Go `error` value, identified by its message. A possibly-nil `error` is
`Option GoError`, `none` standing for `nil`. -/
structure GoError where
  msg : String
deriving DecidableEq, Repr

/-- The value `context.Canceled`. -/
def contextCanceled : GoError := ⟨"context canceled"⟩

/-- The value `fmt.Errorf("signal received, stopping push-consumer")` of `Start`. -/
def stopSignalError : GoError := ⟨"signal received, stopping push-consumer"⟩

/-- The type `registry.WatchConfig` without its handler (the handlers of this package
only log their argument). -/
structure WatchConfig where
  WatchType : String
  WatchPath : String
deriving DecidableEq, Repr

/-- An object behind `registry.IWatcher`: the configuration it was registered with and
how often each of its two methods has been invoked. -/
structure Watcher where
  config : WatchConfig
  startWatchCalls : Nat
  stopWatchCalls : Nat
deriving DecidableEq, Repr

/-- The result of `registry.Watch(&cfg)` when the registry answers `r`: a new watcher on
which no method has been invoked yet, or the error (and then a nil watcher). -/
def registryWatch (cfg : WatchConfig) (r : Option GoError) : Except GoError Watcher :=
  match r with
  | none => .ok ⟨cfg, 0, 0⟩
  | some e => .error e

/-- Method `StartWatch` is invoked on the watcher. -/
def Watcher.StartWatch (w : Watcher) : Watcher :=
  { w with startWatchCalls := w.startWatchCalls + 1 }

/-- Method `StopWatch` is invoked on the watcher. -/
def Watcher.StopWatch (w : Watcher) : Watcher :=
  { w with stopWatchCalls := w.stopWatchCalls + 1 }

/-! ## errgroup.Group -/

/-- An `errgroup.Group` made by `errgroup.WithContext`, together with the context that
call returns: `wg` is the counter of the group's `sync.WaitGroup`, `err` the error kept
by `errOnce`, and `ctxErr` the value of `gctx.Err()` (`none` while `gctx.Done()` is
open). -/
structure Group where
  wg : Nat
  err : Option GoError
  ctxErr : Option GoError
deriving DecidableEq, Repr

/-- The call `errgroup.WithContext(ctx)`, where `parentErr` is `ctx.Err()`: the derived
context is done from the start exactly when the parent is. -/
def Group.withContext (parentErr : Option GoError) : Group :=
  ⟨0, none, parentErr⟩

/-- The cancel function of the group's context: the first cancellation fixes `Err()`. -/
def Group.cancel (g : Group) : Group :=
  match g.ctxErr with
  | none => { g with ctxErr := some contextCanceled }
  | some _ => g

/-- The parent context of the group's context is cancelled with error `e`. -/
def Group.parentCancel (g : Group) (e : GoError) : Group :=
  match g.ctxErr with
  | none => { g with ctxErr := some e }
  | some _ => g

/-- The bookkeeping of `g.Go(f)` at the call: `g.wg.Add(1)`. -/
def Group.go (g : Group) : Group :=
  { g with wg := g.wg + 1 }

/-- The bookkeeping of `g.Go(f)` when `f` returns `r`: a non-nil `r` goes through
`errOnce` (kept and the context cancelled only if it is the first), then `g.wg.Done()`. -/
def Group.taskReturn (g : Group) (r : Option GoError) : Group :=
  let g1 :=
    match r with
    | none => g
    | some e =>
      match g.err with
      | none => Group.cancel { g with err := some e }
      | some _ => g
  { g1 with wg := g1.wg - 1 }

/-- The call `g.Wait()`: blocked (`none`) while the counter is positive; otherwise it
cancels the context and returns the kept error. -/
def Group.Wait (g : Group) : Option (Option GoError × Group) :=
  if g.wg = 0 then some (g.err, g.cancel) else none

/-! ## The Service struct -/

/-- The fields of `Service` that `Start`, `Stop`, `lead` and `stepDown` read or write.
A channel of `struct{}` that is only ever closed is the flag "closed"; a `*errgroup.Group`
field is `none` while it is nil, and holds the group it points to otherwise. -/
structure Service where
  nodeID : String
  doneChClosed : Bool
  stopChClosed : Bool
  workgrp : Option Group
  leadgrp : Option Group
deriving DecidableEq, Repr

/-- The constructor `NewService`, where `nodeID` is the value of `uuid.New().String()`:
both channels are made open, and `workgrp` and `leadgrp` are left nil. -/
def NewService (nodeID : String) : Service :=
  { nodeID := nodeID, doneChClosed := false, stopChClosed := false,
    workgrp := none, leadgrp := none }

/-! ## Leadership session: `lead` and `stepDown` -/

/-- Where a goroutine running `return w.StartWatch()` is: not launched, launched and not
yet in the call, blocked inside `StartWatch`, or returned. -/
inductive WatchTaskPC where
  | notLaunched
  | launched
  | inStartWatch
  | returned
deriving DecidableEq, Repr

/-- Where the third goroutine of `lead` (the reaper) is: not launched, blocked on
`<-gctx.Done()`, past it, past the `nodeWatcher` block, past the `subWatcher` block, or
returned. -/
inductive ReaperPC where
  | notLaunched
  | waiting
  | woken
  | stoppedNode
  | stoppedSub
  | returned
deriving DecidableEq, Repr

/-- Where the caller of `stepDown` is: no call in progress, blocked in
`c.leadgrp.Wait()`, or returned from the latest call. -/
inductive StepDownPC where
  | idle
  | waiting
  | returned
deriving DecidableEq, Repr

/-- The service together with the leader-only goroutines of the latest `lead` call: the
locals `nodeWatcher` and `subWatcher` its closures capture, the three program counters,
and what an observer records (the configurations handed to `registry.Watch` by that call,
its return value, the value the latest `c.leadgrp.Wait()` yielded, and whether a
goroutine has panicked). -/
structure LeadState where
  svc : Service
  nodeWatcher : Option Watcher
  subWatcher : Option Watcher
  nodeTask : WatchTaskPC
  subTask : WatchTaskPC
  reaper : ReaperPC
  watchLog : List WatchConfig
  leadRet : Option (Option GoError)
  stepDown : StepDownPC
  waitResult : Option (Option GoError)
  panicked : Bool
deriving DecidableEq, Repr

/-- The state in which no callback has run yet, on a service made by `NewService`. -/
def LeadState.init (nodeID : String) : LeadState :=
  { svc := NewService nodeID, nodeWatcher := none, subWatcher := none,
    nodeTask := .notLaunched, subTask := .notLaunched, reaper := .notLaunched,
    watchLog := [], leadRet := none, stepDown := .idle, waitResult := none,
    panicked := false }

/-- The watch configuration `nwh` of `lead`. -/
def nodesWatchConfig : WatchConfig := ⟨"keyprefix", "/registry/nodes"⟩

/-- The watch configuration `swh` of `lead`. -/
def subscriptionsWatchConfig : WatchConfig := ⟨"keyprefix", "/registry/subscriptions"⟩

/-- The method `Service.lead(ctx)`: `ctxErr` is `ctx.Err()` at the call, `nodeReg` and
`subReg` are the registry's answers to the two `Watch` calls (`subReg` is not consulted
when the first registration fails). -/
def lead (st : LeadState) (ctxErr nodeReg subReg : Option GoError) : LeadState :=
  let grp := Group.withContext ctxErr
  let st := { st with svc := { st.svc with leadgrp := some grp },
                      nodeWatcher := none, subWatcher := none,
                      nodeTask := .notLaunched, subTask := .notLaunched,
                      reaper := .notLaunched, watchLog := [] }
  match registryWatch nodesWatchConfig nodeReg with
  | .error e => { st with watchLog := [nodesWatchConfig], leadRet := some (some e) }
  | .ok nodeWatcher =>
    let st := { st with nodeWatcher := some nodeWatcher, watchLog := [nodesWatchConfig] }
    match registryWatch subscriptionsWatchConfig subReg with
    | .error e =>
      { st with watchLog := [nodesWatchConfig, subscriptionsWatchConfig],
                leadRet := some (some e) }
    | .ok subWatcher =>
      { st with svc := { st.svc with leadgrp := some grp.go.go.go },
                subWatcher := some subWatcher,
                watchLog := [nodesWatchConfig, subscriptionsWatchConfig],
                nodeTask := .launched, subTask := .launched, reaper := .waiting,
                leadRet := some none }

/-- What a call of `stepDown` does on a service. -/
inductive StepDownOutcome where
  | fault
  | blocked
  | returned (c : Service) (waited : Option GoError)
deriving DecidableEq, Repr

/-- The method `Service.stepDown()`: `c.leadgrp.Wait()` on a nil group dereferences nil
(`Wait` reads `g.wg`); otherwise it blocks until `Wait` returns, and drops the result. -/
def Service.stepDown (c : Service) : StepDownOutcome :=
  match c.leadgrp with
  | none => .fault
  | some g =>
    match g.Wait with
    | none => .blocked
    | some (r, g1) => .returned { c with leadgrp := some g1 } r

/-- One atomic step of the leadership part of the service. -/
inductive LeadAction where
  /-- the election layer invokes `OnStartedLeading(ctx)` -/
  | lead (ctxErr nodeReg subReg : Option GoError)
  /-- the context given to the latest `lead` is cancelled with error `e` -/
  | ctxCancel (e : GoError)
  /-- the first goroutine invokes `nodeWatcher.StartWatch()` -/
  | nodeStart
  /-- that call returns `r` -/
  | nodeReturn (r : Option GoError)
  /-- the second goroutine invokes `subWatcher.StartWatch()` -/
  | subStart
  /-- that call returns `r` -/
  | subReturn (r : Option GoError)
  /-- the reaper gets past `<-gctx.Done()` -/
  | reaperWake
  /-- the reaper runs `if nodeWatcher != nil { nodeWatcher.StopWatch() }` -/
  | reaperStopNode
  /-- the reaper runs `if subWatcher != nil { subWatcher.StopWatch() }` -/
  | reaperStopSub
  /-- the reaper returns `gctx.Err()` -/
  | reaperReturn
  /-- the election layer invokes `OnStoppedLeading()` -/
  | stepDownCall
  /-- the pending `c.leadgrp.Wait()` of `stepDown` returns -/
  | stepDownReturn
deriving DecidableEq, Repr

/-- All three goroutines of the latest `lead` call, if any were launched, have returned. -/
def LeadState.drained (st : LeadState) : Bool :=
  (st.nodeTask == .notLaunched || st.nodeTask == .returned) &&
  (st.subTask == .notLaunched || st.subTask == .returned) &&
  (st.reaper == .notLaunched || st.reaper == .returned)

/-- The group `c.leadgrp` points to is replaced by `f` of it. -/
def LeadState.withGroup (st : LeadState) (f : Group → Group) : LeadState :=
  { st with svc := { st.svc with leadgrp := st.svc.leadgrp.map f } }

/-- The step function of the leadership part: `none` when the action is not enabled.
It describes the service under an election layer that invokes its two callbacks one at a
time and starts a session only after the previous one has drained, so that a call of
`lead` is one step; `HandoffState.step` drops this and takes `lead` statement by
statement. A watcher's `StartWatch` may return at any time with any result; after a panic
nothing runs. -/
def LeadState.step (st : LeadState) (a : LeadAction) : Option LeadState :=
  if st.panicked then none else
  match a with
  | .lead ctxErr nodeReg subReg =>
    if st.stepDown ≠ .waiting ∧ st.drained then
      some { lead st ctxErr nodeReg subReg with stepDown := .idle }
    else none
  | .ctxCancel e =>
    match st.svc.leadgrp with
    | none => none
    | some _ => some (st.withGroup (Group.parentCancel · e))
  | .nodeStart =>
    if st.nodeTask = .launched then
      match st.nodeWatcher with
      | none => some { st with panicked := true }
      | some w => some { st with nodeWatcher := some w.StartWatch, nodeTask := .inStartWatch }
    else none
  | .nodeReturn r =>
    if st.nodeTask = .inStartWatch then
      some { st.withGroup (Group.taskReturn · r) with nodeTask := .returned }
    else none
  | .subStart =>
    if st.subTask = .launched then
      match st.subWatcher with
      | none => some { st with panicked := true }
      | some w => some { st with subWatcher := some w.StartWatch, subTask := .inStartWatch }
    else none
  | .subReturn r =>
    if st.subTask = .inStartWatch then
      some { st.withGroup (Group.taskReturn · r) with subTask := .returned }
    else none
  | .reaperWake =>
    match st.svc.leadgrp with
    | none => none
    | some g =>
      if st.reaper = .waiting ∧ g.ctxErr.isSome then some { st with reaper := .woken }
      else none
  | .reaperStopNode =>
    if st.reaper = .woken then
      some { st with nodeWatcher := st.nodeWatcher.map Watcher.StopWatch,
                     reaper := .stoppedNode }
    else none
  | .reaperStopSub =>
    if st.reaper = .stoppedNode then
      some { st with subWatcher := st.subWatcher.map Watcher.StopWatch,
                     reaper := .stoppedSub }
    else none
  | .reaperReturn =>
    match st.svc.leadgrp with
    | none => none
    | some g =>
      if st.reaper = .stoppedSub then
        some { st.withGroup (Group.taskReturn · g.ctxErr) with reaper := .returned }
      else none
  | .stepDownCall =>
    if st.stepDown = .waiting then none else
    match st.svc.stepDown with
    | .fault => some { st with panicked := true }
    | _ => some { st with stepDown := .waiting }
  | .stepDownReturn =>
    if st.stepDown = .waiting then
      match st.svc.stepDown with
      | .returned c r => some { st with svc := c, stepDown := .returned, waitResult := some r }
      | _ => none
    else none

/-- Runs a schedule: `none` as soon as one of its actions is not enabled. -/
def LeadState.run (st : LeadState) : List LeadAction → Option LeadState
  | [] => some st
  | a :: rest =>
    match st.step a with
    | none => none
    | some st1 => LeadState.run st1 rest

/-- The states the leadership part can be in, on a service made by `NewService nodeID`. -/
inductive LeadReachable (nodeID : String) : LeadState → Prop where
  | init : LeadReachable nodeID (LeadState.init nodeID)
  | step {st st1 : LeadState} (a : LeadAction) :
      LeadReachable nodeID st → st.step a = some st1 → LeadReachable nodeID st1

/-- How much a watch goroutine contributes to the counter of its group. -/
def WatchTaskPC.live : WatchTaskPC → Nat
  | .notLaunched => 0
  | .launched => 1
  | .inStartWatch => 1
  | .returned => 0

/-- How much the reaper contributes to the counter of its group. -/
def ReaperPC.live : ReaperPC → Nat
  | .notLaunched => 0
  | .waiting => 1
  | .woken => 1
  | .stoppedNode => 1
  | .stoppedSub => 1
  | .returned => 0

/-- The reaper is past `<-gctx.Done()`. -/
def ReaperPC.awake : ReaperPC → Bool
  | .notLaunched => false
  | .waiting => false
  | .woken => true
  | .stoppedNode => true
  | .stoppedSub => true
  | .returned => true

/-- The invariant of the leadership part. -/
structure LeadInv (st : LeadState) : Prop where
  counter : ∀ g, st.svc.leadgrp = some g →
    g.wg = st.nodeTask.live + st.subTask.live + st.reaper.live
  nogroup : st.svc.leadgrp = none →
    st.nodeTask = .notLaunched ∧ st.subTask = .notLaunched ∧ st.reaper = .notLaunched ∧
    st.stepDown = .idle
  together : (st.nodeTask = .notLaunched ↔ st.reaper = .notLaunched) ∧
    (st.subTask = .notLaunched ↔ st.reaper = .notLaunched)
  watchers : st.reaper ≠ .notLaunched → st.nodeWatcher.isSome ∧ st.subWatcher.isSome
  started : st.leadRet = some none → st.reaper ≠ .notLaunched
  errCancels : ∀ g, st.svc.leadgrp = some g → g.err.isSome → g.ctxErr.isSome
  awake : ∀ g, st.svc.leadgrp = some g → st.reaper.awake → g.ctxErr.isSome
  closed : st.stepDown = .returned → st.drained = true
  sound : st.panicked = true → st.svc.leadgrp = none

/-- The reaper has run its `nodeWatcher` block. -/
def ReaperPC.pastNode : ReaperPC → Bool
  | .notLaunched => false
  | .waiting => false
  | .woken => false
  | .stoppedNode => true
  | .stoppedSub => true
  | .returned => true

/-- The reaper has run its `subWatcher` block. -/
def ReaperPC.pastSub : ReaperPC → Bool
  | .notLaunched => false
  | .waiting => false
  | .woken => false
  | .stoppedNode => false
  | .stoppedSub => true
  | .returned => true

/-- `StopWatch` has been invoked on the watcher the variable holds. -/
def stopWatchInvoked (w : Option Watcher) : Prop :=
  ∃ x, w = some x ∧ 0 < x.stopWatchCalls

/-- What the reaper has done to the watchers by the time it is at a program counter. -/
structure StopInv (st : LeadState) : Prop where
  node : st.reaper.pastNode = true → stopWatchInvoked st.nodeWatcher
  sub : st.reaper.pastSub = true → stopWatchInvoked st.subWatcher

/-- The action is a call of `lead`. -/
def LeadAction.isLead : LeadAction → Bool
  | .lead _ _ _ => true
  | _ => false

/-- A scheduler that drains the current session: the watch goroutines enter `StartWatch`,
the leading context is cancelled if it is not yet, the reaper runs to its end, each
`StartWatch` returns nil after its `StopWatch`, and `stepDown` is called and returns.
It yields `none` once `stepDown` has returned. -/
def LeadState.next (st : LeadState) : Option LeadAction :=
  if st.nodeTask = .launched then some .nodeStart
  else if st.subTask = .launched then some .subStart
  else if st.reaper = .waiting then
    match st.svc.leadgrp with
    | none => none
    | some g => if g.ctxErr.isSome then some .reaperWake else some (.ctxCancel contextCanceled)
  else if st.reaper = .woken then some .reaperStopNode
  else if st.reaper = .stoppedNode then some .reaperStopSub
  else if st.reaper = .stoppedSub then some .reaperReturn
  else if st.nodeTask = .inStartWatch then some (.nodeReturn none)
  else if st.subTask = .inStartWatch then some (.subReturn none)
  else if st.stepDown = .idle then some .stepDownCall
  else if st.stepDown = .waiting then some .stepDownReturn
  else none

/-- The schedule the scheduler `next` produces from a state, cut off after `fuel` steps. -/
def LeadState.drainSchedule : Nat → LeadState → List LeadAction
  | 0, _ => []
  | fuel + 1, st =>
    match st.next with
    | none => []
    | some a =>
      match st.step a with
      | none => []
      | some st1 => a :: LeadState.drainSchedule fuel st1

/-- How many steps of the scheduler `next` are left before `stepDown` has returned. -/
def LeadState.remaining (st : LeadState) : Nat :=
  (match st.nodeTask with
   | .launched => 2
   | .inStartWatch => 1
   | _ => 0) +
  (match st.subTask with
   | .launched => 2
   | .inStartWatch => 1
   | _ => 0) +
  (match st.reaper with
   | .waiting =>
     match st.svc.leadgrp with
     | some g => if g.ctxErr.isSome then 4 else 5
     | none => 5
   | .woken => 3
   | .stoppedNode => 2
   | .stoppedSub => 1
   | _ => 0) +
  (match st.stepDown with
   | .idle => 2
   | .waiting => 1
   | .returned => 0)

/-- What holds of a session from the moment a task of it returned `e` as the first non-nil
error: the group keeps `e`, its scope is cancelled, the goroutines stay launched, and a
`stepDown` that returns has been handed `e` by `Wait`. -/
structure FailInv (e : GoError) (st : LeadState) : Prop where
  grp : ∃ g, st.svc.leadgrp = some g ∧ g.err = some e ∧ g.ctxErr = some contextCanceled
  launched : st.reaper ≠ .notLaunched
  wait : st.stepDown = .returned → st.waitResult = some (some e)

/-! ## Concrete executions of the leadership part -/

/-- A schedule in which node `node-1` is elected and both leader watches are running. -/
def activeSchedule : List LeadAction :=
  [.lead none none none, .nodeStart, .subStart]

/-- The state the schedule `activeSchedule` leads to: an active session. -/
def activeSession : LeadState :=
  { svc := { NewService "node-1" with leadgrp := some ⟨3, none, none⟩ },
    nodeWatcher := some ⟨nodesWatchConfig, 1, 0⟩,
    subWatcher := some ⟨subscriptionsWatchConfig, 1, 0⟩,
    nodeTask := .inStartWatch, subTask := .inStartWatch, reaper := .waiting,
    watchLog := [nodesWatchConfig, subscriptionsWatchConfig],
    leadRet := some none, stepDown := .idle, waitResult := none, panicked := false }

/-- The error with which the node watch of the example fails. -/
def watchFailure : GoError := ⟨"registry unreachable"⟩

/-- The active session right after `nodeWatcher.StartWatch()` returned `watchFailure`. -/
def failedSession : LeadState :=
  { activeSession with
    svc := { NewService "node-1" with
             leadgrp := some ⟨2, some watchFailure, some contextCanceled⟩ },
    nodeTask := .returned }

/-- A schedule in which the session is revoked and drains, and `stepDown` returns. -/
def closedSchedule : List LeadAction :=
  activeSchedule ++
    [.ctxCancel contextCanceled, .stepDownCall, .reaperWake, .reaperStopNode, .reaperStopSub,
     .reaperReturn, .nodeReturn none, .subReturn none, .stepDownReturn]

/-- The state the schedule `closedSchedule` leads to: a closed session. -/
def closedSession : LeadState :=
  { svc := { NewService "node-1" with leadgrp := some ⟨0, some contextCanceled, some contextCanceled⟩ },
    nodeWatcher := some ⟨nodesWatchConfig, 1, 1⟩,
    subWatcher := some ⟨subscriptionsWatchConfig, 1, 1⟩,
    nodeTask := .returned, subTask := .returned, reaper := .returned,
    watchLog := [nodesWatchConfig, subscriptionsWatchConfig],
    leadRet := some none, stepDown := .returned, waitResult := some (some contextCanceled),
    panicked := false }

/-! ## The top-level group: `Start` and `Stop` -/

/-- Where the goroutine running `c.candidate.Run(gctx)` is. -/
inductive ElectionPC where
  | notLaunched
  | running
  | returned
deriving DecidableEq, Repr

/-- Where the second goroutine of `Start` (the self-assignment watch) is: not launched,
launched and not yet past `c.registry.Watch(&wh)`, past a successful registration,
blocked inside `watcher.StartWatch()`, or returned. -/
inductive SelfWatchPC where
  | notLaunched
  | launched
  | registered
  | inStartWatch
  | returned
deriving DecidableEq, Repr

/-- Where the third goroutine of `Start` (the stop-listener) is: not launched, blocked in
its `select`, past the `select` with its local `err` set, past the `watcher` block, or
returned. -/
inductive ListenerPC where
  | notLaunched
  | waiting
  | selected (err : GoError)
  | stopped (err : GoError)
  | returned
deriving DecidableEq, Repr

/-- Where the fourth goroutine of `Start` (`<-c.stopCh`, then an error) is. -/
inductive SignalPC where
  | notLaunched
  | waiting
  | returned
deriving DecidableEq, Repr

/-- Where the caller of `Start` is: not called, returned `e` from one of the two early
`return err`, blocked in `c.workgrp.Wait()`, or returned `r` after `close(c.doneCh)`. -/
inductive StartPC where
  | notCalled
  | failed (e : GoError)
  | waiting
  | returned (r : Option GoError)
deriving DecidableEq, Repr

/-- The service together with the goroutines of `Start`: the value of `c.ctx.Err()`, the
local `watcher` its closures share, the program counters, and what an observer records
(the configurations handed to `registry.Watch`, how often `close(c.doneCh)` ran, how many
callers of `Stop` are blocked on `<-c.doneCh` and how many have returned, and whether a
goroutine has panicked). -/
structure TopState where
  svc : Service
  ctxErr : Option GoError
  watcher : Option Watcher
  election : ElectionPC
  selfWatch : SelfWatchPC
  listener : ListenerPC
  signal : SignalPC
  start : StartPC
  watchLog : List WatchConfig
  doneCloses : Nat
  stopWaiting : Nat
  stopReturned : Nat
  panicked : Bool
deriving DecidableEq, Repr

/-- The state before `Start` or `Stop` is called, on a service made by `NewService`. -/
def TopState.init (nodeID : String) : TopState :=
  { svc := NewService nodeID, ctxErr := none, watcher := none,
    election := .notLaunched, selfWatch := .notLaunched, listener := .notLaunched,
    signal := .notLaunched, start := .notCalled, watchLog := [], doneCloses := 0,
    stopWaiting := 0, stopReturned := 0, panicked := false }

/-- The watch configuration `wh` of the second goroutine of `Start`, the path being
`fmt.Sprintf("/registry/nodes/%s/subscriptions", c.nodeID)`. -/
def selfWatchConfig (c : Service) : WatchConfig :=
  ⟨"keyprefix", "/registry/nodes/" ++ c.nodeID ++ "/subscriptions"⟩

/-- The method `Service.Start()` up to its `c.workgrp.Wait()`: `regErr` is the error of
`registry.NewRegistry` and `candErr` that of `leaderelection.New` (not consulted when the
registry fails). Either it returns early, or the four goroutines are launched and the
caller is left in `Wait`. -/
def Start (st : TopState) (regErr candErr : Option GoError) : TopState :=
  let grp := Group.withContext st.ctxErr
  let st := { st with svc := { st.svc with workgrp := some grp } }
  match regErr with
  | some e => { st with start := .failed e }
  | none =>
    match candErr with
    | some e => { st with start := .failed e }
    | none =>
      { st with svc := { st.svc with workgrp := some grp.go.go.go.go },
                election := .running, selfWatch := .launched, listener := .waiting,
                signal := .waiting, start := .waiting }

/-- The end of `Service.Start()`: `err = c.workgrp.Wait()`, `close(c.doneCh)` (a panic if
the channel is closed already), `return err`. It yields `none` while `Wait` blocks. -/
def StartFinish (st : TopState) : Option TopState :=
  match st.svc.workgrp with
  | none => none
  | some g =>
    match g.Wait with
    | none => none
    | some (r, g1) =>
      if st.svc.doneChClosed then some { st with panicked := true }
      else
        some { st with svc := { st.svc with workgrp := some g1, doneChClosed := true },
                       doneCloses := st.doneCloses + 1, start := .returned r }

/-- The method `Service.Stop()` up to its `<-c.doneCh`: `close(c.stopCh)` panics if the
channel is closed already; otherwise the caller is left waiting on `c.doneCh`. -/
def Stop (st : TopState) : TopState :=
  if st.svc.stopChClosed then { st with panicked := true }
  else { st with svc := { st.svc with stopChClosed := true },
                 stopWaiting := st.stopWaiting + 1 }

/-- The end of `Service.Stop()`: a caller blocked on `<-c.doneCh` gets through once the
channel is closed, and returns nil. -/
def StopFinish (st : TopState) : Option TopState :=
  if 0 < st.stopWaiting ∧ st.svc.doneChClosed then
    some { st with stopWaiting := st.stopWaiting - 1, stopReturned := st.stopReturned + 1 }
  else none

/-- One atomic step of the top-level part of the service. -/
inductive TopAction where
  /-- the host calls `Start()` -/
  | start (regErr candErr : Option GoError)
  /-- the context `c.ctx` is cancelled with error `e` -/
  | ctxCancel (e : GoError)
  /-- the call `c.candidate.Run(gctx)` returns `r` -/
  | electionReturn (r : Option GoError)
  /-- the second goroutine runs `watcher, err = c.registry.Watch(&wh)`, the registry
  answering `r` -/
  | watchRegister (r : Option GoError)
  /-- the second goroutine invokes `watcher.StartWatch()` -/
  | watchStart
  /-- that call returns `r` -/
  | watchReturn (r : Option GoError)
  /-- the stop-listener gets past its `select`, through the `c.stopCh` case or through
  the `gctx.Done()` case -/
  | listenerSelect (viaStop : Bool)
  /-- the stop-listener runs `if watcher != nil { watcher.StopWatch() }` -/
  | listenerStopWatch
  /-- the stop-listener returns its `err` -/
  | listenerReturn
  /-- the fourth goroutine gets past `<-c.stopCh` and returns its error -/
  | signalReturn
  /-- the `Wait` of `Start` returns, `c.doneCh` is closed and `Start` returns -/
  | startReturn
  /-- a caller invokes `Stop()` -/
  | stopCall
  /-- a pending `Stop()` gets past `<-c.doneCh` and returns -/
  | stopReturn
deriving DecidableEq, Repr

/-- The group `c.workgrp` points to is replaced by `f` of it. -/
def TopState.withGroup (st : TopState) (f : Group → Group) : TopState :=
  { st with svc := { st.svc with workgrp := st.svc.workgrp.map f } }

/-- The step function of the top-level part: `none` when the action is not enabled.
It follows one call of `Start` (`TopState.hostStep` lets the host call `Start` again);
the candidate's `Run` and the watcher's `StartWatch` may return at any time with any
result; after a panic nothing runs. -/
def TopState.step (st : TopState) (a : TopAction) : Option TopState :=
  if st.panicked then none else
  match a with
  | .start regErr candErr =>
    if st.start = .notCalled then some (Start st regErr candErr) else none
  | .ctxCancel e =>
    match st.ctxErr with
    | some _ => some st
    | none => some { st.withGroup (Group.parentCancel · e) with ctxErr := some e }
  | .electionReturn r =>
    if st.election = .running then
      some { st.withGroup (Group.taskReturn · r) with election := .returned }
    else none
  | .watchRegister r =>
    if st.selfWatch = .launched then
      match registryWatch (selfWatchConfig st.svc) r with
      | .error e =>
        some { st.withGroup (Group.taskReturn · (some e)) with
               watcher := none, watchLog := st.watchLog ++ [selfWatchConfig st.svc],
               selfWatch := .returned }
      | .ok w =>
        some { st with watcher := some w,
                       watchLog := st.watchLog ++ [selfWatchConfig st.svc],
                       selfWatch := .registered }
    else none
  | .watchStart =>
    if st.selfWatch = .registered then
      match st.watcher with
      | none => some { st with panicked := true }
      | some w => some { st with watcher := some w.StartWatch, selfWatch := .inStartWatch }
    else none
  | .watchReturn r =>
    if st.selfWatch = .inStartWatch then
      some { st.withGroup (Group.taskReturn · r) with selfWatch := .returned }
    else none
  | .listenerSelect viaStop =>
    if st.listener = .waiting then
      if viaStop then
        if st.svc.stopChClosed then some { st with listener := .selected stopSignalError }
        else none
      else
        match st.svc.workgrp.bind Group.ctxErr with
        | some ce => some { st with listener := .selected ce }
        | none => none
    else none
  | .listenerStopWatch =>
    match st.listener with
    | .selected err =>
      some { st with watcher := st.watcher.map Watcher.StopWatch, listener := .stopped err }
    | _ => none
  | .listenerReturn =>
    match st.listener with
    | .stopped err =>
      some { st.withGroup (Group.taskReturn · (some err)) with listener := .returned }
    | _ => none
  | .signalReturn =>
    if st.signal = .waiting ∧ st.svc.stopChClosed then
      some { st.withGroup (Group.taskReturn · (some stopSignalError)) with
             signal := .returned }
    else none
  | .startReturn =>
    if st.start = .waiting then StartFinish st else none
  | .stopCall => some (Stop st)
  | .stopReturn => StopFinish st

/-- Runs a schedule: `none` as soon as one of its actions is not enabled. -/
def TopState.run (st : TopState) : List TopAction → Option TopState
  | [] => some st
  | a :: rest =>
    match st.step a with
    | none => none
    | some st1 => TopState.run st1 rest

/-- The states the top-level part can be in, on a service made by `NewService nodeID`. -/
inductive TopReachable (nodeID : String) : TopState → Prop where
  | init : TopReachable nodeID (TopState.init nodeID)
  | step {st st1 : TopState} (a : TopAction) :
      TopReachable nodeID st → st.step a = some st1 → TopReachable nodeID st1

/-- How much the election goroutine contributes to the counter of the group. -/
def ElectionPC.live : ElectionPC → Nat
  | .notLaunched => 0
  | .running => 1
  | .returned => 0

/-- How much the self-assignment watch goroutine contributes to the counter. -/
def SelfWatchPC.live : SelfWatchPC → Nat
  | .notLaunched => 0
  | .launched => 1
  | .registered => 1
  | .inStartWatch => 1
  | .returned => 0

/-- How much the stop-listener contributes to the counter. -/
def ListenerPC.live : ListenerPC → Nat
  | .notLaunched => 0
  | .waiting => 1
  | .selected _ => 1
  | .stopped _ => 1
  | .returned => 0

/-- How much the fourth goroutine contributes to the counter. -/
def SignalPC.live : SignalPC → Nat
  | .notLaunched => 0
  | .waiting => 1
  | .returned => 0

/-- The invariant of the top-level part, on a service made by `NewService nodeID`. -/
structure TopInv (nodeID : String) (st : TopState) : Prop where
  ident : st.svc.nodeID = nodeID
  log : ∀ cfg ∈ st.watchLog, cfg = selfWatchConfig (NewService nodeID)
  counter : st.start = .waiting → ∃ g, st.svc.workgrp = some g ∧
    g.wg = st.election.live + st.selfWatch.live + st.listener.live + st.signal.live
  idle : (st.start = .notCalled ∨ ∃ e, st.start = .failed e) →
    st.election = .notLaunched ∧ st.selfWatch = .notLaunched ∧
    st.listener = .notLaunched ∧ st.signal = .notLaunched ∧ st.watchLog = [] ∧
    st.watcher = none
  unclosed : (∀ r, st.start ≠ .returned r) →
    st.svc.doneChClosed = false ∧ st.doneCloses = 0 ∧ st.stopReturned = 0
  launched : st.start = .waiting →
    st.election ≠ .notLaunched ∧ st.selfWatch ≠ .notLaunched ∧
    st.listener ≠ .notLaunched ∧ st.signal ≠ .notLaunched
  done : ∀ r, st.start = .returned r →
    st.svc.doneChClosed = true ∧ st.doneCloses = 1 ∧ st.election = .returned ∧
    st.selfWatch = .returned ∧ st.listener = .returned ∧ st.signal = .returned
  signalled : st.signal = .returned → st.svc.stopChClosed = true
  registered : st.selfWatch = .registered → st.watcher.isSome = true

/-! ## Concrete executions of the top-level part -/

/-- The error with which the election of the example ends. -/
def electionFailure : GoError := ⟨"lease lost"⟩

/-- A schedule without any `Stop`: `Start` launches its goroutines, the self-assignment
watch is registered and started, `c.candidate.Run` fails, the stop-listener sees the
cancellation and stops the watch, and `StartWatch` returns. -/
def electionFailureSchedule : List TopAction :=
  [.start none none, .watchRegister none, .watchStart,
   .electionReturn (some electionFailure), .listenerSelect false, .listenerStopWatch,
   .listenerReturn, .watchReturn none]

/-- The state the schedule `electionFailureSchedule` leads to: only the fourth goroutine
is left, blocked on `c.stopCh`. -/
def electionFailed : TopState :=
  { svc := { NewService "node-1" with
             workgrp := some ⟨1, some electionFailure, some contextCanceled⟩ },
    ctxErr := none,
    watcher := some ⟨selfWatchConfig (NewService "node-1"), 1, 1⟩,
    election := .returned, selfWatch := .returned, listener := .returned,
    signal := .waiting, start := .waiting,
    watchLog := [selfWatchConfig (NewService "node-1")],
    doneCloses := 0, stopWaiting := 0, stopReturned := 0, panicked := false }

/-- A schedule in which `Stop` is called right after `Start` launched its goroutines: the
stop-listener gets through its `select` and its `watcher` block while `watcher` is still
nil, and only then the second goroutine registers the watch and invokes `StartWatch`. -/
def leakSchedule : List TopAction :=
  [.start none none, .stopCall, .listenerSelect true, .listenerStopWatch, .listenerReturn,
   .watchRegister none, .watchStart]

/-- The state the schedule `leakSchedule` leads to: the stop-listener has returned and
the self-assignment watch is running. -/
def leakedWatch : TopState :=
  { svc := { NewService "node-1" with
             stopChClosed := true,
             workgrp := some ⟨3, some stopSignalError, some contextCanceled⟩ },
    ctxErr := none,
    watcher := some ⟨selfWatchConfig (NewService "node-1"), 1, 0⟩,
    election := .running, selfWatch := .inStartWatch, listener := .returned,
    signal := .waiting, start := .waiting,
    watchLog := [selfWatchConfig (NewService "node-1")],
    doneCloses := 0, stopWaiting := 1, stopReturned := 0, panicked := false }

/-- A continuation of `leakSchedule` in which the remaining goroutines return (the
`StartWatch` call ends on its own), `Start` returns and the pending `Stop` returns. -/
def leakContinuation : List TopAction :=
  [.signalReturn, .electionReturn (some contextCanceled), .watchReturn none, .startReturn,
   .stopReturn]

/-- The state `leakContinuation` leads to from `leakedWatch`. -/
def leakedFinal : TopState :=
  { svc := { NewService "node-1" with
             stopChClosed := true, doneChClosed := true,
             workgrp := some ⟨0, some stopSignalError, some contextCanceled⟩ },
    ctxErr := none,
    watcher := some ⟨selfWatchConfig (NewService "node-1"), 1, 0⟩,
    election := .returned, selfWatch := .returned, listener := .returned,
    signal := .returned, start := .returned (some stopSignalError),
    watchLog := [selfWatchConfig (NewService "node-1")],
    doneCloses := 1, stopWaiting := 0, stopReturned := 1, panicked := false }

/-- The stop-listener has returned without ever invoking `StopWatch` on the watcher that
the second goroutine started. -/
structure LeakInv (st : TopState) : Prop where
  listener : st.listener = .returned
  selfWatch : st.selfWatch = .inStartWatch ∨ st.selfWatch = .returned
  start : st.start ≠ .notCalled
  watcher : ∃ w, st.watcher = some w ∧ w.startWatchCalls = 1 ∧ w.stopWatchCalls = 0

/-- A schedule of a clean shutdown: the watch is registered and started, `Stop` is
called, every goroutine returns, `Start` returns and `Stop` returns. -/
def shutdownSchedule : List TopAction :=
  [.start none none, .watchRegister none, .watchStart, .stopCall, .signalReturn,
   .listenerSelect true, .listenerStopWatch, .listenerReturn, .watchReturn none,
   .electionReturn (some contextCanceled), .startReturn, .stopReturn]

/-- The state the schedule `shutdownSchedule` leads to: a stopped service. -/
def stoppedService : TopState :=
  { svc := { NewService "node-1" with
             stopChClosed := true, doneChClosed := true,
             workgrp := some ⟨0, some stopSignalError, some contextCanceled⟩ },
    ctxErr := none,
    watcher := some ⟨selfWatchConfig (NewService "node-1"), 1, 1⟩,
    election := .returned, selfWatch := .returned, listener := .returned,
    signal := .returned, start := .returned (some stopSignalError),
    watchLog := [selfWatchConfig (NewService "node-1")],
    doneCloses := 1, stopWaiting := 0, stopReturned := 1, panicked := false }

/-- The error with which the registry construction of the example fails. -/
def registryFailure : GoError := ⟨"registry unreachable"⟩

/-- The state after `Start` returned early with `registryFailure` and `Stop` was called
afterwards. -/
def stopAfterFailedStart : TopState :=
  { svc := { NewService "node-1" with
             stopChClosed := true, workgrp := some ⟨0, none, none⟩ },
    ctxErr := none, watcher := none,
    election := .notLaunched, selfWatch := .notLaunched, listener := .notLaunched,
    signal := .notLaunched, start := .failed registryFailure,
    watchLog := [], doneCloses := 0, stopWaiting := 1, stopReturned := 0,
    panicked := false }

/-! ## Hand-off: `lead` and `stepDown` with no serialisation between them

`Service` has no lock: `stepDown` may run while a call of `lead` is between its
statements.  Here a call of `lead` is taken statement by statement, and calls of
`stepDown` may be made at any time; the goroutines run as in `LeadState.step`.  The
model follows one call of `lead` and the calls of `stepDown` that read the group this
call stores in `c.leadgrp`. -/

/-- Where a call of `lead` is: not made, past `c.leadgrp, gctx = errgroup.WithContext(ctx)`,
past the first successful `Watch`, past the second, past the first `Go`, past the second,
past the third, or returned. -/
inductive LeadCallPC where
  | notCalled
  | stored
  | nodeRegistered
  | subRegistered
  | nodeLaunched
  | subLaunched
  | reaperLaunched
  | returned (r : Option GoError)
deriving DecidableEq, Repr

/-- The call of `lead` is past its first `Go`. -/
def LeadCallPC.pastGoNode : LeadCallPC → Bool
  | .nodeLaunched => true
  | .subLaunched => true
  | .reaperLaunched => true
  | .returned none => true
  | _ => false

/-- The call of `lead` is past its second `Go`. -/
def LeadCallPC.pastGoSub : LeadCallPC → Bool
  | .subLaunched => true
  | .reaperLaunched => true
  | .returned none => true
  | _ => false

/-- The call of `lead` is past its third `Go`. -/
def LeadCallPC.pastGoReaper : LeadCallPC → Bool
  | .reaperLaunched => true
  | .returned none => true
  | _ => false

/-- The action is a step of a goroutine of the session or of its leading context, not a
step of a callback. -/
def LeadAction.isTask : LeadAction → Bool
  | .lead _ _ _ => false
  | .stepDownCall => false
  | .stepDownReturn => false
  | _ => true

/-- The service and the goroutines of the session (`base`), where the call of `lead` is,
and the calls of `stepDown`: how many made before `lead` had returned nil are blocked in
`Wait` and how many of them have returned, and the same for the calls made after `lead`
had returned nil. -/
structure HandoffState where
  base : LeadState
  leadCall : LeadCallPC
  waitingEarly : Nat
  returnedEarly : Nat
  waitingAfter : Nat
  returnedAfter : Nat
deriving DecidableEq, Repr

/-- The state in which no callback has run yet, on a service made by `NewService`. -/
def HandoffState.init (nodeID : String) : HandoffState :=
  { base := LeadState.init nodeID, leadCall := .notCalled,
    waitingEarly := 0, returnedEarly := 0, waitingAfter := 0, returnedAfter := 0 }

/-- One atomic step of the hand-off model. -/
inductive HandoffAction where
  /-- the call of `lead` runs `c.leadgrp, gctx = errgroup.WithContext(ctx)` -/
  | leadStore (ctxErr : Option GoError)
  /-- it runs `nodeWatcher, err = c.registry.Watch(&nwh)`, and returns `err` if non-nil -/
  | leadWatchNodes (r : Option GoError)
  /-- it runs `subWatcher, err = c.registry.Watch(&swh)`, and returns `err` if non-nil -/
  | leadWatchSubs (r : Option GoError)
  /-- it runs the first `c.leadgrp.Go` -/
  | leadGoNode
  /-- it runs the second `c.leadgrp.Go` -/
  | leadGoSub
  /-- it runs the third `c.leadgrp.Go` -/
  | leadGoReaper
  /-- it runs `return nil` -/
  | leadReturn
  /-- a goroutine of the session, or its leading context, takes a step -/
  | task (a : LeadAction)
  /-- a call of `stepDown` is made: it reads `c.leadgrp` and enters `Wait` -/
  | stepDownCall
  /-- the `Wait` of a call of `stepDown` returns; `afterLead` says whether the call was
  made after `lead` had returned nil -/
  | stepDownReturn (afterLead : Bool)
deriving DecidableEq, Repr

/-- The bookkeeping of `c.leadgrp.Go(f)` at the call, on the service: a nil `c.leadgrp`
is dereferenced (`none`), otherwise the counter of the group goes up. -/
def Service.leadgrpGo (c : Service) : Option Service :=
  match c.leadgrp with
  | none => none
  | some g => some { c with leadgrp := some g.go }

/-- The step function of the hand-off model: `none` when the action is not enabled. -/
def HandoffState.step (s : HandoffState) (a : HandoffAction) : Option HandoffState :=
  if s.base.panicked then none else
  match a with
  | .leadStore ctxErr =>
    if s.leadCall = .notCalled then
      some { s with
        base := { s.base with
                  svc := { s.base.svc with leadgrp := some (Group.withContext ctxErr) },
                  nodeWatcher := none, subWatcher := none, watchLog := [] },
        leadCall := .stored }
    else none
  | .leadWatchNodes r =>
    if s.leadCall = .stored then
      match registryWatch nodesWatchConfig r with
      | .error e =>
        some { s with
          base := { s.base with watchLog := [nodesWatchConfig], leadRet := some (some e) },
          leadCall := .returned (some e) }
      | .ok w =>
        some { s with
          base := { s.base with nodeWatcher := some w, watchLog := [nodesWatchConfig] },
          leadCall := .nodeRegistered }
    else none
  | .leadWatchSubs r =>
    if s.leadCall = .nodeRegistered then
      match registryWatch subscriptionsWatchConfig r with
      | .error e =>
        some { s with
          base := { s.base with watchLog := [nodesWatchConfig, subscriptionsWatchConfig],
                                leadRet := some (some e) },
          leadCall := .returned (some e) }
      | .ok w =>
        some { s with
          base := { s.base with subWatcher := some w,
                                watchLog := [nodesWatchConfig, subscriptionsWatchConfig] },
          leadCall := .subRegistered }
    else none
  | .leadGoNode =>
    if s.leadCall = .subRegistered then
      match s.base.svc.leadgrpGo with
      | none => some { s with base := { s.base with panicked := true } }
      | some c =>
        some { s with base := { s.base with svc := c, nodeTask := .launched },
                      leadCall := .nodeLaunched }
    else none
  | .leadGoSub =>
    if s.leadCall = .nodeLaunched then
      match s.base.svc.leadgrpGo with
      | none => some { s with base := { s.base with panicked := true } }
      | some c =>
        some { s with base := { s.base with svc := c, subTask := .launched },
                      leadCall := .subLaunched }
    else none
  | .leadGoReaper =>
    if s.leadCall = .subLaunched then
      match s.base.svc.leadgrpGo with
      | none => some { s with base := { s.base with panicked := true } }
      | some c =>
        some { s with base := { s.base with svc := c, reaper := .waiting },
                      leadCall := .reaperLaunched }
    else none
  | .leadReturn =>
    if s.leadCall = .reaperLaunched then
      some { s with base := { s.base with leadRet := some none },
                    leadCall := .returned none }
    else none
  | .task a =>
    if a.isTask then
      match s.base.step a with
      | none => none
      | some b => some { s with base := b }
    else none
  | .stepDownCall =>
    match s.base.svc.stepDown with
    | .fault => some { s with base := { s.base with panicked := true } }
    | _ =>
      if s.leadCall = .returned none then some { s with waitingAfter := s.waitingAfter + 1 }
      else some { s with waitingEarly := s.waitingEarly + 1 }
  | .stepDownReturn afterLead =>
    match s.base.svc.stepDown with
    | .returned c r =>
      if afterLead then
        if 0 < s.waitingAfter then
          some { s with base := { s.base with svc := c, waitResult := some r },
                        waitingAfter := s.waitingAfter - 1,
                        returnedAfter := s.returnedAfter + 1 }
        else none
      else
        if 0 < s.waitingEarly then
          some { s with base := { s.base with svc := c, waitResult := some r },
                        waitingEarly := s.waitingEarly - 1,
                        returnedEarly := s.returnedEarly + 1 }
        else none
    | _ => none

/-- Runs a schedule: `none` as soon as one of its actions is not enabled. -/
def HandoffState.run (s : HandoffState) : List HandoffAction → Option HandoffState
  | [] => some s
  | a :: rest =>
    match s.step a with
    | none => none
    | some s1 => HandoffState.run s1 rest

/-- The states the hand-off model can be in, on a service made by `NewService nodeID`. -/
inductive HandoffReachable (nodeID : String) : HandoffState → Prop where
  | init : HandoffReachable nodeID (HandoffState.init nodeID)
  | step {s s1 : HandoffState} (a : HandoffAction) :
      HandoffReachable nodeID s → s.step a = some s1 → HandoffReachable nodeID s1

/-- The statements of a call of `lead` whose two registrations succeed, in order. -/
def leadStatements (ctxErr : Option GoError) : List HandoffAction :=
  [.leadStore ctxErr, .leadWatchNodes none, .leadWatchSubs none, .leadGoNode, .leadGoSub,
   .leadGoReaper, .leadReturn]

/-- A schedule in which a call of `stepDown` falls between the first statement of `lead`
and the rest of it. -/
def earlyStepDownSchedule : List HandoffAction :=
  [.leadStore none, .stepDownCall, .stepDownReturn false, .leadWatchNodes none,
   .leadWatchSubs none, .leadGoNode, .leadGoSub, .leadGoReaper, .leadReturn]

/-- The state the schedule `earlyStepDownSchedule` leads to on node `node-1`: the session
has started and a `stepDown` has returned already. -/
def earlyStepDown : HandoffState :=
  { base :=
      { svc := { NewService "node-1" with leadgrp := some ⟨3, none, some contextCanceled⟩ },
        nodeWatcher := some ⟨nodesWatchConfig, 0, 0⟩,
        subWatcher := some ⟨subscriptionsWatchConfig, 0, 0⟩,
        nodeTask := .launched, subTask := .launched, reaper := .waiting,
        watchLog := [nodesWatchConfig, subscriptionsWatchConfig],
        leadRet := some none, stepDown := .idle, waitResult := some none,
        panicked := false },
    leadCall := .returned none,
    waitingEarly := 0, returnedEarly := 1, waitingAfter := 0, returnedAfter := 0 }

/-- What the goroutine steps keep true of a session: the counter of the group counts the
goroutines that are launched and have not returned, and without a group there is no
goroutine. -/
structure TaskInv (st : LeadState) : Prop where
  counter : ∀ g, st.svc.leadgrp = some g →
    g.wg = st.nodeTask.live + st.subTask.live + st.reaper.live
  grouped : st.svc.leadgrp = none →
    st.nodeTask = .notLaunched ∧ st.subTask = .notLaunched ∧ st.reaper = .notLaunched

/-- What a goroutine step leaves as it is: which goroutines are launched, which have
returned already, and the return value of `lead`. -/
structure TaskFrame (st st1 : LeadState) : Prop where
  node : st1.nodeTask = .notLaunched ↔ st.nodeTask = .notLaunched
  sub : st1.subTask = .notLaunched ↔ st.subTask = .notLaunched
  reaper : st1.reaper = .notLaunched ↔ st.reaper = .notLaunched
  nodeDone : st.nodeTask = .returned → st1.nodeTask = .returned
  subDone : st.subTask = .returned → st1.subTask = .returned
  reaperDone : st.reaper = .returned → st1.reaper = .returned
  leadRet : st1.leadRet = st.leadRet

/-- The invariant of the hand-off model. -/
structure HandoffInv (s : HandoffState) : Prop where
  tasks : TaskInv s.base
  node : s.base.nodeTask = .notLaunched ↔ s.leadCall.pastGoNode = false
  sub : s.base.subTask = .notLaunched ↔ s.leadCall.pastGoSub = false
  reaper : s.base.reaper = .notLaunched ↔ s.leadCall.pastGoReaper = false
  after : 0 < s.waitingAfter + s.returnedAfter → s.leadCall = .returned none
  closed : 0 < s.returnedAfter →
    s.base.nodeTask = .returned ∧ s.base.subTask = .returned ∧ s.base.reaper = .returned

/-- A schedule in which `stepDown` is called after `lead` has returned: the session runs,
`stepDown` is called, the leading context is cancelled, the session drains and `Wait`
returns. -/
def lateStepDownSchedule : List HandoffAction :=
  leadStatements none ++
    [.task .nodeStart, .task .subStart, .stepDownCall, .task (.ctxCancel contextCanceled),
     .task .reaperWake, .task .reaperStopNode, .task .reaperStopSub, .task .reaperReturn,
     .task (.nodeReturn none), .task (.subReturn none), .stepDownReturn true]

/-- The state the schedule `lateStepDownSchedule` leads to on node `node-1`. -/
def lateStepDown : HandoffState :=
  { base := { closedSession with stepDown := .idle },
    leadCall := .returned none,
    waitingEarly := 0, returnedEarly := 0, waitingAfter := 0, returnedAfter := 1 }

/-! ## Calling `Start` again

`TopState.step` follows one call of `Start`.  The host may call `Start` again once the
previous call has returned; the goroutines of the previous call are gone by then, and the
new call has its own local `watcher`. -/

/-- The state at the entry of a new call of `Start`: no goroutine of this call is
launched yet and its local `watcher` is nil; the service and what the observer has
recorded stay. -/
def TopState.fresh (st : TopState) : TopState :=
  { st with watcher := none, election := .notLaunched, selfWatch := .notLaunched,
            listener := .notLaunched, signal := .notLaunched, start := .notCalled }

/-- The step function of the service as its host drives it: as `TopState.step`, except
that `Start` may be called whenever no call of `Start` is in progress. -/
def TopState.hostStep (st : TopState) (a : TopAction) : Option TopState :=
  match a with
  | .start regErr candErr =>
    if st.panicked then none
    else if st.start = .waiting then none
    else some (Start st.fresh regErr candErr)
  | b => st.step b

/-- Runs a schedule of the host: `none` as soon as one of its actions is not enabled. -/
def TopState.hostRun (st : TopState) : List TopAction → Option TopState
  | [] => some st
  | a :: rest =>
    match st.hostStep a with
    | none => none
    | some st1 => TopState.hostRun st1 rest

/-- The states the service can be in when `Start` may be called again, on a service made
by `NewService nodeID`. -/
inductive HostReachable (nodeID : String) : TopState → Prop where
  | init : HostReachable nodeID (TopState.init nodeID)
  | step {st st1 : TopState} (a : TopAction) :
      HostReachable nodeID st → st.hostStep a = some st1 → HostReachable nodeID st1

/-- The invariant of the service across calls of `Start`. -/
structure HostInv (st : TopState) : Prop where
  counter : st.start = .waiting → ∃ g, st.svc.workgrp = some g ∧
    g.wg = st.election.live + st.selfWatch.live + st.listener.live + st.signal.live
  idle : (st.start = .notCalled ∨ ∃ e, st.start = .failed e) →
    st.election = .notLaunched ∧ st.selfWatch = .notLaunched ∧
    st.listener = .notLaunched ∧ st.signal = .notLaunched ∧ st.watcher = none
  launched : st.start = .waiting →
    st.election ≠ .notLaunched ∧ st.selfWatch ≠ .notLaunched ∧
    st.listener ≠ .notLaunched ∧ st.signal ≠ .notLaunched
  done : ∀ r, st.start = .returned r →
    st.svc.doneChClosed = true ∧ st.election = .returned ∧
    st.selfWatch = .returned ∧ st.listener = .returned ∧ st.signal = .returned
  closes : (st.svc.doneChClosed = true ↔ st.doneCloses = 1) ∧ st.doneCloses ≤ 1
  stops : 0 < st.stopReturned → st.svc.doneChClosed = true
  registered : st.selfWatch = .registered → st.watcher.isSome = true

/-- A schedule of the host after `Start` has returned early and `Stop` is waiting: `Start`
is called again with a working registry and candidate, its goroutines see the closed
`c.stopCh` and return, `Start` returns through `Wait`, and the waiting `Stop` returns. -/
def restartSchedule : List TopAction :=
  [.start none none, .watchRegister none, .watchStart, .listenerSelect true,
   .listenerStopWatch, .listenerReturn, .watchReturn none, .signalReturn,
   .electionReturn (some contextCanceled), .startReturn, .stopReturn]

/-- The state the schedule `restartSchedule` leads to from `stopAfterFailedStart`. -/
def restarted : TopState :=
  { svc := { NewService "node-1" with
             stopChClosed := true, doneChClosed := true,
             workgrp := some ⟨0, some stopSignalError, some contextCanceled⟩ },
    ctxErr := none,
    watcher := some ⟨selfWatchConfig (NewService "node-1"), 1, 1⟩,
    election := .returned, selfWatch := .returned, listener := .returned,
    signal := .returned, start := .returned (some stopSignalError),
    watchLog := [selfWatchConfig (NewService "node-1")],
    doneCloses := 1, stopWaiting := 0, stopReturned := 1, panicked := false }

/-! ## Health checks (`internal/health/model.go`) -/

/-- A `context.Context` as far as its deadline goes: the instant of `ctx.Deadline()`, in
nanoseconds, or `none` when the context has no deadline. -/
structure Context where
  deadline : Option Int
deriving DecidableEq, Repr

/-- The call `context.WithDeadline(parent, d)`: when the parent's deadline is already
before `d` the result is `WithCancel(parent)`, which keeps the parent's deadline;
otherwise the result has deadline `d`. -/
def Context.WithDeadline (parent : Context) (d : Int) : Context :=
  match parent.deadline with
  | some cur => if cur < d then parent else { deadline := some d }
  | none => { deadline := some d }

/-- The constant `time.Second`, a `time.Duration` in nanoseconds. -/
def timeSecond : Int := 1000000000

/-- The interface `messagebroker.Admin` as far as the health check uses it. -/
structure Admin where
  IsHealthy : Context → Bool × Option GoError

/-- The type `brokerHealthChecker`. -/
structure brokerHealthChecker where
  admin : Admin

/-- The context `newCtx` of `brokerHealthChecker.checkHealth`, where `now` is the value of
`time.Now()`: `context.WithDeadline(ctx, time.Now().Add(time.Second*1))`. -/
def brokerHealthChecker.newCtx (ctx : Context) (now : Int) : Context :=
  ctx.WithDeadline (now + timeSecond * 1)

/-- The method `brokerHealthChecker.checkHealth(ctx)`: it returns what
`b.admin.IsHealthy(newCtx)` returns (the deferred `cancel()` runs after the result is
fixed). -/
def brokerHealthChecker.checkHealth (b : brokerHealthChecker) (ctx : Context) (now : Int) :
    Bool × Option GoError :=
  b.admin.IsHealthy (brokerHealthChecker.newCtx ctx now)

/-! ## Invariant of the leadership part -/

@[simp] theorem Group.wg_cancel (g : Group) : g.cancel.wg = g.wg := by
  unfold Group.cancel; split <;> rfl

@[simp] theorem Group.err_cancel (g : Group) : g.cancel.err = g.err := by
  unfold Group.cancel; split <;> rfl

@[simp] theorem Group.ctxErr_cancel_isSome (g : Group) : g.cancel.ctxErr.isSome = true := by
  unfold Group.cancel; split <;> simp_all

theorem Group.ctxErr_cancel_of_some (g : Group) {e : GoError} (h : g.ctxErr = some e) :
    g.cancel.ctxErr = some e := by
  unfold Group.cancel; simp [h]

@[simp] theorem Group.wg_parentCancel (g : Group) (e : GoError) :
    (g.parentCancel e).wg = g.wg := by
  unfold Group.parentCancel; split <;> rfl

@[simp] theorem Group.err_parentCancel (g : Group) (e : GoError) :
    (g.parentCancel e).err = g.err := by
  unfold Group.parentCancel; split <;> rfl

@[simp] theorem Group.ctxErr_parentCancel_isSome (g : Group) (e : GoError) :
    (g.parentCancel e).ctxErr.isSome = true := by
  unfold Group.parentCancel; split <;> simp_all

@[simp] theorem Group.wg_taskReturn (g : Group) (r : Option GoError) :
    (g.taskReturn r).wg = g.wg - 1 := by
  unfold Group.taskReturn
  cases r <;> simp
  split <;> simp

theorem Group.ctxErr_taskReturn_of_isSome (g : Group) (r : Option GoError)
    (h : g.ctxErr.isSome = true) : (g.taskReturn r).ctxErr.isSome = true := by
  unfold Group.taskReturn
  cases r <;> simp [h]
  split <;> simp [h]

theorem Group.err_taskReturn_cancels (g : Group) (r : Option GoError)
    (h : g.err.isSome = true → g.ctxErr.isSome = true)
    (h1 : (g.taskReturn r).err.isSome = true) : (g.taskReturn r).ctxErr.isSome = true := by
  unfold Group.taskReturn at h1 ⊢
  cases r
  · simpa using h (by simpa using h1)
  · simp only at h1 ⊢
    split
    · simp
    · rename_i e0 he
      exact h (by simp [he])

@[simp] theorem LeadState.withGroup_leadgrp (st : LeadState) (f : Group → Group) :
    (st.withGroup f).svc.leadgrp = st.svc.leadgrp.map f := rfl

@[simp] theorem LeadState.withGroup_nodeTask (st : LeadState) (f : Group → Group) :
    (st.withGroup f).nodeTask = st.nodeTask := rfl

@[simp] theorem LeadState.withGroup_subTask (st : LeadState) (f : Group → Group) :
    (st.withGroup f).subTask = st.subTask := rfl

@[simp] theorem LeadState.withGroup_reaper (st : LeadState) (f : Group → Group) :
    (st.withGroup f).reaper = st.reaper := rfl

@[simp] theorem LeadState.withGroup_nodeWatcher (st : LeadState) (f : Group → Group) :
    (st.withGroup f).nodeWatcher = st.nodeWatcher := rfl

@[simp] theorem LeadState.withGroup_subWatcher (st : LeadState) (f : Group → Group) :
    (st.withGroup f).subWatcher = st.subWatcher := rfl

@[simp] theorem LeadState.withGroup_leadRet (st : LeadState) (f : Group → Group) :
    (st.withGroup f).leadRet = st.leadRet := rfl

@[simp] theorem LeadState.withGroup_stepDown (st : LeadState) (f : Group → Group) :
    (st.withGroup f).stepDown = st.stepDown := rfl

@[simp] theorem LeadState.withGroup_waitResult (st : LeadState) (f : Group → Group) :
    (st.withGroup f).waitResult = st.waitResult := rfl

@[simp] theorem LeadState.withGroup_panicked (st : LeadState) (f : Group → Group) :
    (st.withGroup f).panicked = st.panicked := rfl

@[simp] theorem LeadState.withGroup_watchLog (st : LeadState) (f : Group → Group) :
    (st.withGroup f).watchLog = st.watchLog := rfl

theorem WatchTaskPC.watch_live_eq_zero {p : WatchTaskPC} (h : p.live = 0) :
    p = .notLaunched ∨ p = .returned := by
  cases p <;> simp [WatchTaskPC.live] at h ⊢

theorem ReaperPC.reaper_live_eq_zero {p : ReaperPC} (h : p.live = 0) :
    p = .notLaunched ∨ p = .returned := by
  cases p <;> simp [ReaperPC.live] at h ⊢

theorem Service.stepDown_of_group {c : Service} {g : Group} (h : c.leadgrp = some g) :
    c.stepDown = if g.wg = 0 then .returned { c with leadgrp := some g.cancel } g.err
      else .blocked := by
  unfold Service.stepDown Group.Wait
  rw [h]
  by_cases hz : g.wg = 0 <;> simp [hz]

theorem leadInv_init (nodeID : String) : LeadInv (LeadState.init nodeID) := by
  constructor <;> simp [LeadState.init, NewService, WatchTaskPC.live, ReaperPC.live,
    ReaperPC.awake, LeadState.drained]

theorem leadInv_step {st st1 : LeadState} {a : LeadAction} (h : LeadInv st)
    (hs : st.step a = some st1) : LeadInv st1 := by
  obtain ⟨h1, h2, h3, h4, h5, h6, h7, h8, h9⟩ := h
  unfold LeadState.step at hs
  split at hs
  · simp at hs
  cases a <;> simp only at hs
  case lead ctxErr nodeReg subReg =>
    split at hs
    · simp only [Option.some.injEq] at hs
      subst hs
      clear h1 h2 h3 h4 h5 h6 h7 h8 h9
      rename_i hp hg
      cases nodeReg <;> cases subReg <;>
        constructor <;>
          simp [lead, registryWatch, Group.withContext, Group.go, WatchTaskPC.live,
            ReaperPC.live, ReaperPC.awake, LeadState.drained, hp]
    · simp at hs
  case ctxCancel e =>
    split at hs
    · simp at hs
    · rename_i g hg
      simp only [Option.some.injEq] at hs
      subst hs
      constructor <;> simp_all [LeadState.drained]
  case nodeStart =>
    split at hs
    · rename_i hpc
      have hw := h4 (fun hr => by simp [h3.1.mpr hr] at hpc)
      split at hs
      · simp_all
      · simp only [Option.some.injEq] at hs
        subst hs
        constructor <;> simp_all [LeadState.drained, WatchTaskPC.live]
    · simp at hs
  case subStart =>
    split at hs
    · rename_i hpc
      have hw := h4 (fun hr => by simp [h3.2.mpr hr] at hpc)
      split at hs
      · simp_all
      · simp only [Option.some.injEq] at hs
        subst hs
        constructor <;> simp_all [LeadState.drained, WatchTaskPC.live]
    · simp at hs
  case nodeReturn r =>
    split at hs
    · rename_i hpc
      simp only [Option.some.injEq] at hs
      subst hs
      have hr : st.reaper ≠ .notLaunched := fun hr => by simp [h3.1.mpr hr] at hpc
      cases hl : st.svc.leadgrp with
      | none => simp [h2 hl] at hpc
      | some g0 =>
        have hc := h1 g0 hl
        have he := h6 g0 hl
        have ha := h7 g0 hl
        constructor
        · simp [hl]; simp [hpc, WatchTaskPC.live] at hc ⊢; omega
        · simp [hl]
        · exact ⟨by simpa using hr, by simpa using h3.2⟩
        · simpa using h4
        · simpa using h5
        · simp only [LeadState.withGroup_leadgrp, hl, Option.map_some', Option.some.injEq]
          rintro g rfl
          exact Group.err_taskReturn_cancels g0 r he
        · simp only [LeadState.withGroup_leadgrp, hl, Option.map_some', Option.some.injEq]
          rintro g rfl h
          exact Group.ctxErr_taskReturn_of_isSome g0 r (ha h)
        · intro h
          have := h8 (by simpa using h)
          simp [LeadState.drained, hpc] at this
        · simpa [hl] using h9
    · simp at hs
  case subReturn r =>
    split at hs
    · rename_i hpc
      simp only [Option.some.injEq] at hs
      subst hs
      have hr : st.reaper ≠ .notLaunched := fun hr => by simp [h3.2.mpr hr] at hpc
      cases hl : st.svc.leadgrp with
      | none => simp [h2 hl] at hpc
      | some g0 =>
        have hc := h1 g0 hl
        have he := h6 g0 hl
        have ha := h7 g0 hl
        constructor
        · simp [hl]; simp [hpc, WatchTaskPC.live] at hc ⊢; omega
        · simp [hl]
        · exact ⟨by simpa using h3.1, by simpa using hr⟩
        · simpa using h4
        · simpa using h5
        · simp only [LeadState.withGroup_leadgrp, hl, Option.map_some', Option.some.injEq]
          rintro g rfl
          exact Group.err_taskReturn_cancels g0 r he
        · simp only [LeadState.withGroup_leadgrp, hl, Option.map_some', Option.some.injEq]
          rintro g rfl h
          exact Group.ctxErr_taskReturn_of_isSome g0 r (ha h)
        · intro h
          have := h8 (by simpa using h)
          simp [LeadState.drained, hpc] at this
        · simpa [hl] using h9
    · simp at hs
  case reaperWake =>
    split at hs
    · simp at hs
    · rename_i g0 hl
      split at hs
      · rename_i hg
        simp only [Option.some.injEq] at hs
        subst hs
        constructor <;> simp_all [LeadState.drained, ReaperPC.live, ReaperPC.awake]
      · simp at hs
  case reaperStopNode =>
    split at hs
    · rename_i hpc
      simp only [Option.some.injEq] at hs
      subst hs
      constructor <;> simp_all [LeadState.drained, ReaperPC.live, ReaperPC.awake]
    · simp at hs
  case reaperStopSub =>
    split at hs
    · rename_i hpc
      simp only [Option.some.injEq] at hs
      subst hs
      constructor <;> simp_all [LeadState.drained, ReaperPC.live, ReaperPC.awake]
    · simp at hs
  case reaperReturn =>
    split at hs
    · simp at hs
    · rename_i g0 hl
      split at hs
      · rename_i hpc
        simp only [Option.some.injEq] at hs
        subst hs
        have hc := h1 g0 hl
        have he := h6 g0 hl
        have ha := h7 g0 hl
        constructor
        · simp [hl]; simp [hpc, ReaperPC.live] at hc ⊢; omega
        · simp [hl]
        · have h31 := h3.1
          have h32 := h3.2
          simp [hpc] at h31 h32
          simp [h31, h32]
        · intro _
          exact h4 (by simp [hpc])
        · simp
        · simp only [LeadState.withGroup_leadgrp, hl, Option.map_some', Option.some.injEq]
          rintro g rfl
          exact Group.err_taskReturn_cancels g0 _ he
        · simp only [LeadState.withGroup_leadgrp, hl, Option.map_some', Option.some.injEq]
          rintro g rfl -
          exact Group.ctxErr_taskReturn_of_isSome g0 _ (ha (by simp [hpc, ReaperPC.awake]))
        · intro h
          have := h8 (by simpa using h)
          simp [LeadState.drained, hpc] at this
        · simpa [hl] using h9
      · simp at hs
  case stepDownCall =>
    split at hs
    · simp at hs
    · rename_i hpc
      cases hl : st.svc.leadgrp with
      | none =>
        simp only [Service.stepDown, hl, Option.some.injEq] at hs
        subst hs
        have := h2 hl
        constructor <;> simp_all [LeadState.drained]
      | some g0 =>
        rw [Service.stepDown_of_group hl] at hs
        have hst : st1 = { st with stepDown := .waiting } := by
          by_cases hz : g0.wg = 0 <;> simp [hz] at hs <;> exact hs.symm
        subst hst
        constructor <;> simp_all [LeadState.drained]
  case stepDownReturn =>
    split at hs
    · rename_i hpc
      cases hl : st.svc.leadgrp with
      | none => simp [Service.stepDown, hl] at hs
      | some g0 =>
        rw [Service.stepDown_of_group hl] at hs
        by_cases hz : g0.wg = 0
        · simp only [hz, if_true, Option.some.injEq] at hs
          subst hs
          have hc := h1 g0 hl
          have he := h6 g0 hl
          have hn := WatchTaskPC.watch_live_eq_zero (p := st.nodeTask) (by omega)
          have hsb := WatchTaskPC.watch_live_eq_zero (p := st.subTask) (by omega)
          have hrp := ReaperPC.reaper_live_eq_zero (p := st.reaper) (by omega)
          constructor
          · simpa using hc
          · simp
          · exact h3
          · exact h4
          · exact h5
          · simp
          · simp
          · intro _
            rcases hn with hn | hn <;> rcases hsb with hsb | hsb <;> rcases hrp with hrp | hrp <;>
              simp [LeadState.drained, hn, hsb, hrp]
          · simpa [hl] using h9
        · simp [hz] at hs
    · simp at hs

theorem LeadReachable.leadInv {nodeID : String} {st : LeadState} (h : LeadReachable nodeID st) :
    LeadInv st := by
  induction h with
  | init => exact leadInv_init nodeID
  | step a _ hs ih => exact leadInv_step ih hs

theorem LeadReachable.runLead {nodeID : String} {st st1 : LeadState}
    (h : LeadReachable nodeID st) (acts : List LeadAction) (hr : st.run acts = some st1) :
    LeadReachable nodeID st1 := by
  induction acts generalizing st with
  | nil =>
    simp only [LeadState.run, Option.some.injEq] at hr
    exact hr ▸ h
  | cons a rest ih =>
    simp only [LeadState.run] at hr
    cases hs : st.step a with
    | none => simp [hs] at hr
    | some st2 =>
      simp only [hs] at hr
      exact ih (LeadReachable.step a h hs) hr

theorem stopWatchInvoked_StartWatch {w : Watcher} (h : stopWatchInvoked (some w)) :
    stopWatchInvoked (some w.StartWatch) := by
  obtain ⟨x, hx, hp⟩ := h
  simp only [Option.some.injEq] at hx
  subst hx
  exact ⟨_, rfl, hp⟩

theorem stopWatchInvoked_map_StopWatch {w : Option Watcher} (h : w.isSome = true) :
    stopWatchInvoked (w.map Watcher.StopWatch) := by
  cases w with
  | none => simp at h
  | some x => exact ⟨_, rfl, by simp [Watcher.StopWatch]⟩

theorem stopInv_init (nodeID : String) : StopInv (LeadState.init nodeID) := by
  constructor <;> simp [LeadState.init, ReaperPC.pastNode, ReaperPC.pastSub]

theorem stopInv_step {st st1 : LeadState} {a : LeadAction} (hi : LeadInv st) (h : StopInv st)
    (hs : st.step a = some st1) : StopInv st1 := by
  obtain ⟨hn, hb⟩ := h
  unfold LeadState.step at hs
  split at hs
  · simp at hs
  cases a <;> simp only at hs
  case lead ctxErr nodeReg subReg =>
    split at hs
    · simp only [Option.some.injEq] at hs
      subst hs
      cases nodeReg <;> cases subReg <;> constructor <;>
        simp [lead, registryWatch, ReaperPC.pastNode, ReaperPC.pastSub]
    · simp at hs
  case ctxCancel e =>
    split at hs
    · simp at hs
    · simp only [Option.some.injEq] at hs
      subst hs
      exact ⟨by simpa using hn, by simpa using hb⟩
  case nodeStart =>
    split at hs
    · split at hs
      · simp only [Option.some.injEq] at hs
        subst hs
        exact ⟨hn, hb⟩
      · rename_i w hw
        simp only [Option.some.injEq] at hs
        subst hs
        exact ⟨fun h => stopWatchInvoked_StartWatch (hw ▸ hn h), hb⟩
    · simp at hs
  case subStart =>
    split at hs
    · split at hs
      · simp only [Option.some.injEq] at hs
        subst hs
        exact ⟨hn, hb⟩
      · rename_i w hw
        simp only [Option.some.injEq] at hs
        subst hs
        exact ⟨hn, fun h => stopWatchInvoked_StartWatch (hw ▸ hb h)⟩
    · simp at hs
  case nodeReturn r =>
    split at hs
    · simp only [Option.some.injEq] at hs
      subst hs
      exact ⟨by simpa using hn, by simpa using hb⟩
    · simp at hs
  case subReturn r =>
    split at hs
    · simp only [Option.some.injEq] at hs
      subst hs
      exact ⟨by simpa using hn, by simpa using hb⟩
    · simp at hs
  case reaperWake =>
    split at hs
    · simp at hs
    · split at hs
      · simp only [Option.some.injEq] at hs
        subst hs
        constructor <;> simp [ReaperPC.pastNode, ReaperPC.pastSub]
      · simp at hs
  case reaperStopNode =>
    split at hs
    · rename_i hpc
      simp only [Option.some.injEq] at hs
      subst hs
      have hw := hi.watchers (by simp [hpc])
      exact ⟨fun _ => stopWatchInvoked_map_StopWatch hw.1, by simp [ReaperPC.pastSub]⟩
    · simp at hs
  case reaperStopSub =>
    split at hs
    · rename_i hpc
      simp only [Option.some.injEq] at hs
      subst hs
      have hw := hi.watchers (by simp [hpc])
      exact ⟨fun _ => hn (by simp [hpc, ReaperPC.pastNode]),
        fun _ => stopWatchInvoked_map_StopWatch hw.2⟩
    · simp at hs
  case reaperReturn =>
    split at hs
    · simp at hs
    · split at hs
      · rename_i hpc
        simp only [Option.some.injEq] at hs
        subst hs
        exact ⟨fun _ => hn (by simp [hpc, ReaperPC.pastNode]),
          fun _ => hb (by simp [hpc, ReaperPC.pastSub])⟩
      · simp at hs
  case stepDownCall =>
    split at hs
    · simp at hs
    · split at hs <;>
      · simp only [Option.some.injEq] at hs
        subst hs
        exact ⟨hn, hb⟩
  case stepDownReturn =>
    split at hs
    · split at hs
      · simp only [Option.some.injEq] at hs
        subst hs
        exact ⟨hn, hb⟩
      · simp at hs
    · simp at hs

theorem LeadReachable.stopInv {nodeID : String} {st : LeadState}
    (h : LeadReachable nodeID st) : StopInv st := by
  induction h with
  | init => exact stopInv_init nodeID
  | step a hr hs ih => exact stopInv_step hr.leadInv ih hs

/-! ## Draining a session -/

theorem LeadState.next_step {st : LeadState} (hi : LeadInv st) (hp : st.panicked = false)
    (hsd : st.stepDown ≠ .returned) {g : Group} (hg : st.svc.leadgrp = some g) :
    ∃ a st1, st.next = some a ∧ st.step a = some st1 ∧ a.isLead = false ∧
      st1.remaining < st.remaining ∧ st1.panicked = false ∧
      (∃ g1, st1.svc.leadgrp = some g1) := by
  have hc := hi.counter g hg
  have hw := hi.watchers
  have ht := hi.together
  by_cases h1 : st.nodeTask = .launched
  · have hr : st.reaper ≠ .notLaunched := fun hr => by simp [ht.1.mpr hr] at h1
    obtain ⟨w, hw1⟩ := Option.isSome_iff_exists.mp (hw hr).1
    have hnext : st.next = some .nodeStart := by simp [LeadState.next, h1]
    have hstep : st.step .nodeStart =
        some { st with nodeWatcher := some w.StartWatch, nodeTask := .inStartWatch } := by
      simp [LeadState.step, hp, h1, hw1]
    exact ⟨_, _, hnext, hstep, rfl, by simp [LeadState.remaining, h1, hg], hp, ⟨g, hg⟩⟩
  by_cases h2 : st.subTask = .launched
  · have hr : st.reaper ≠ .notLaunched := fun hr => by simp [ht.2.mpr hr] at h2
    obtain ⟨w, hw1⟩ := Option.isSome_iff_exists.mp (hw hr).2
    have hnext : st.next = some .subStart := by simp [LeadState.next, h1, h2]
    have hstep : st.step .subStart =
        some { st with subWatcher := some w.StartWatch, subTask := .inStartWatch } := by
      simp [LeadState.step, hp, h2, hw1]
    exact ⟨_, _, hnext, hstep, rfl, by simp [LeadState.remaining, h2, hg], hp, ⟨g, hg⟩⟩
  by_cases h3 : st.reaper = .waiting
  · by_cases hx : g.ctxErr.isSome = true
    · have hnext : st.next = some .reaperWake := by simp [LeadState.next, h1, h2, h3, hg, hx]
      have hstep : st.step .reaperWake = some { st with reaper := .woken } := by
        simp [LeadState.step, hp, h3, hg, hx]
      exact ⟨_, _, hnext, hstep, rfl, by simp [LeadState.remaining, h3, hg, hx], hp, ⟨g, hg⟩⟩
    · have hnext : st.next = some (.ctxCancel contextCanceled) := by
        simp [LeadState.next, h1, h2, h3, hg, hx]
      have hstep : st.step (.ctxCancel contextCanceled) =
          some (st.withGroup (Group.parentCancel · contextCanceled)) := by
        simp [LeadState.step, hp, hg]
      refine ⟨_, _, hnext, hstep, rfl, ?_, by simpa using hp,
        ⟨g.parentCancel contextCanceled, by simp [hg]⟩⟩
      simp [LeadState.remaining, h3, hg, hx]
  by_cases h4 : st.reaper = .woken
  · have hnext : st.next = some .reaperStopNode := by simp [LeadState.next, h1, h2, h4]
    have hstep : st.step .reaperStopNode =
        some { st with nodeWatcher := st.nodeWatcher.map Watcher.StopWatch,
                       reaper := .stoppedNode } := by
      simp [LeadState.step, hp, h4]
    exact ⟨_, _, hnext, hstep, rfl, by simp [LeadState.remaining, h4], hp, ⟨g, hg⟩⟩
  by_cases h5 : st.reaper = .stoppedNode
  · have hnext : st.next = some .reaperStopSub := by simp [LeadState.next, h1, h2, h5]
    have hstep : st.step .reaperStopSub =
        some { st with subWatcher := st.subWatcher.map Watcher.StopWatch,
                       reaper := .stoppedSub } := by
      simp [LeadState.step, hp, h5]
    exact ⟨_, _, hnext, hstep, rfl, by simp [LeadState.remaining, h5], hp, ⟨g, hg⟩⟩
  by_cases h6 : st.reaper = .stoppedSub
  · have hnext : st.next = some .reaperReturn := by simp [LeadState.next, h1, h2, h6]
    have hstep : st.step .reaperReturn =
        some { st.withGroup (Group.taskReturn · g.ctxErr) with reaper := .returned } := by
      simp [LeadState.step, hp, h6, hg]
    exact ⟨_, _, hnext, hstep, rfl, by simp [LeadState.remaining, h6], by simpa using hp,
      ⟨g.taskReturn g.ctxErr, by simp [hg]⟩⟩
  by_cases h7 : st.nodeTask = .inStartWatch
  · have hnext : st.next = some (.nodeReturn none) := by
      simp [LeadState.next, h1, h2, h3, h4, h5, h6, h7]
    have hstep : st.step (.nodeReturn none) =
        some { st.withGroup (Group.taskReturn · none) with nodeTask := .returned } := by
      simp [LeadState.step, hp, h7]
    refine ⟨_, _, hnext, hstep, rfl, ?_, by simpa using hp,
      ⟨g.taskReturn none, by simp [hg]⟩⟩
    simp [LeadState.remaining, h7, hg, Group.taskReturn]
  by_cases h8 : st.subTask = .inStartWatch
  · have hnext : st.next = some (.subReturn none) := by
      simp [LeadState.next, h1, h2, h3, h4, h5, h6, h7, h8]
    have hstep : st.step (.subReturn none) =
        some { st.withGroup (Group.taskReturn · none) with subTask := .returned } := by
      simp [LeadState.step, hp, h8]
    refine ⟨_, _, hnext, hstep, rfl, ?_, by simpa using hp,
      ⟨g.taskReturn none, by simp [hg]⟩⟩
    simp [LeadState.remaining, h8, hg, Group.taskReturn]
  have hz : g.wg = 0 := by
    have hn : st.nodeTask.live = 0 := by
      cases hh : st.nodeTask <;> simp_all [WatchTaskPC.live]
    have hb : st.subTask.live = 0 := by
      cases hh : st.subTask <;> simp_all [WatchTaskPC.live]
    have hr : st.reaper.live = 0 := by
      cases hh : st.reaper <;> simp_all [ReaperPC.live]
    omega
  by_cases h9 : st.stepDown = .idle
  · have hnext : st.next = some .stepDownCall := by
      simp [LeadState.next, h1, h2, h3, h4, h5, h6, h7, h8, h9]
    have hstep : st.step .stepDownCall = some { st with stepDown := .waiting } := by
      simp [LeadState.step, hp, h9, Service.stepDown_of_group hg, hz]
    exact ⟨_, _, hnext, hstep, rfl, by simp [LeadState.remaining, h9], hp, ⟨g, hg⟩⟩
  · have h10 : st.stepDown = .waiting := by
      cases hh : st.stepDown <;> simp_all
    have hnext : st.next = some .stepDownReturn := by
      simp [LeadState.next, h1, h2, h3, h4, h5, h6, h7, h8, h10]
    have hstep : st.step .stepDownReturn =
        some { st with svc := { st.svc with leadgrp := some g.cancel },
                       stepDown := .returned, waitResult := some g.err } := by
      simp [LeadState.step, hp, h10, Service.stepDown_of_group hg, hz]
    exact ⟨_, _, hnext, hstep, rfl, by simp [LeadState.remaining, h10], hp, ⟨_, rfl⟩⟩

theorem LeadState.next_of_returned {st : LeadState} (hi : LeadInv st)
    (h : st.stepDown = .returned) : st.next = none := by
  have hd := hi.closed h
  simp only [LeadState.drained, Bool.and_eq_true, Bool.or_eq_true, beq_iff_eq] at hd
  obtain ⟨⟨hn, hb⟩, hr⟩ := hd
  rcases hn with hn | hn <;> rcases hb with hb | hb <;> rcases hr with hr | hr <;>
    simp [LeadState.next, hn, hb, hr, h]

theorem LeadState.drain_returns (n : Nat) {st : LeadState} (hi : LeadInv st)
    (hp : st.panicked = false) {g : Group} (hg : st.svc.leadgrp = some g)
    (hn : st.remaining ≤ n) :
    ∃ st2, st.run (st.drainSchedule n) = some st2 ∧ st2.stepDown = .returned ∧
      st2.panicked = false ∧ ∀ a ∈ st.drainSchedule n, a.isLead = false := by
  induction n generalizing st g with
  | zero =>
    have hsd : st.stepDown = .returned := by
      cases hh : st.stepDown <;> simp [LeadState.remaining, hh] at hn ⊢
    exact ⟨st, by simp [LeadState.drainSchedule, LeadState.run], hsd, hp, by
      simp [LeadState.drainSchedule]⟩
  | succ n ih =>
    by_cases hsd : st.stepDown = .returned
    · have hnone := LeadState.next_of_returned hi hsd
      exact ⟨st, by simp [LeadState.drainSchedule, hnone, LeadState.run], hsd, hp, by
        simp [LeadState.drainSchedule, hnone]⟩
    · obtain ⟨a, st1, hnext, hstep, hl, hlt, hp1, g1, hg1⟩ := LeadState.next_step hi hp hsd hg
      obtain ⟨st2, hrun, hret, hp2, hall⟩ :=
        ih (leadInv_step hi hstep) hp1 hg1 (by omega)
      refine ⟨st2, ?_, hret, hp2, ?_⟩
      · simp [LeadState.drainSchedule, hnext, hstep, LeadState.run, hrun]
      · intro b hb
        simp only [LeadState.drainSchedule, hnext, hstep, List.mem_cons] at hb
        rcases hb with rfl | hb
        · exact hl
        · exact hall b hb

/-! ## A failed session -/

theorem Group.taskReturn_of_err {g : Group} {e : GoError} (r : Option GoError)
    (h : g.err = some e) :
    (g.taskReturn r).err = some e ∧ (g.taskReturn r).ctxErr = g.ctxErr := by
  unfold Group.taskReturn
  cases r <;> simp [h]

theorem Group.taskReturn_first {g : Group} (e : GoError) (h : g.err = none)
    (hc : g.ctxErr = none) :
    (g.taskReturn (some e)).err = some e ∧
      (g.taskReturn (some e)).ctxErr = some contextCanceled := by
  simp [Group.taskReturn, h, Group.cancel, hc]

theorem Group.parentCancel_of_ctxErr {g : Group} {c : GoError} (e : GoError)
    (h : g.ctxErr = some c) : g.parentCancel e = g := by
  simp [Group.parentCancel, h]

theorem failInv_step {e : GoError} {st st1 : LeadState} {a : LeadAction}
    (h : FailInv e st) (hs : st.step a = some st1) (hl : a.isLead = false) :
    FailInv e st1 := by
  obtain ⟨⟨g, hg, he, hc⟩, hr, hw⟩ := h
  unfold LeadState.step at hs
  split at hs
  · simp at hs
  cases a <;> simp only at hs
  case lead => simp [LeadAction.isLead] at hl
  case ctxCancel e1 =>
    simp only [hg, Option.some.injEq] at hs
    subst hs
    exact ⟨⟨g, by simp [hg, Group.parentCancel_of_ctxErr e1 hc], he, hc⟩, hr, hw⟩
  case nodeStart =>
    split at hs
    · split at hs <;>
      · simp only [Option.some.injEq] at hs
        subst hs
        exact ⟨⟨g, hg, he, hc⟩, hr, hw⟩
    · simp at hs
  case subStart =>
    split at hs
    · split at hs <;>
      · simp only [Option.some.injEq] at hs
        subst hs
        exact ⟨⟨g, hg, he, hc⟩, hr, hw⟩
    · simp at hs
  case nodeReturn r =>
    split at hs
    · simp only [Option.some.injEq] at hs
      subst hs
      have := Group.taskReturn_of_err r he
      exact ⟨⟨g.taskReturn r, by simp [hg], this.1, this.2.trans hc⟩, hr, hw⟩
    · simp at hs
  case subReturn r =>
    split at hs
    · simp only [Option.some.injEq] at hs
      subst hs
      have := Group.taskReturn_of_err r he
      exact ⟨⟨g.taskReturn r, by simp [hg], this.1, this.2.trans hc⟩, hr, hw⟩
    · simp at hs
  case reaperWake =>
    simp only [hg] at hs
    split at hs
    · rename_i hpc
      simp only [Option.some.injEq] at hs
      subst hs
      exact ⟨⟨g, hg, he, hc⟩, by simp, hw⟩
    · simp at hs
  case reaperStopNode =>
    split at hs
    · simp only [Option.some.injEq] at hs
      subst hs
      exact ⟨⟨g, hg, he, hc⟩, by simp, hw⟩
    · simp at hs
  case reaperStopSub =>
    split at hs
    · simp only [Option.some.injEq] at hs
      subst hs
      exact ⟨⟨g, hg, he, hc⟩, by simp, hw⟩
    · simp at hs
  case reaperReturn =>
    simp only [hg] at hs
    split at hs
    · simp only [Option.some.injEq] at hs
      subst hs
      have := Group.taskReturn_of_err g.ctxErr he
      exact ⟨⟨g.taskReturn g.ctxErr, by simp [hg], this.1, this.2.trans hc⟩, by simp, hw⟩
    · simp at hs
  case stepDownCall =>
    split at hs
    · simp at hs
    · rw [Service.stepDown_of_group hg] at hs
      have hst : st1 = { st with stepDown := .waiting } := by
        by_cases hz : g.wg = 0 <;> simp [hz] at hs <;> exact hs.symm
      subst hst
      exact ⟨⟨g, hg, he, hc⟩, hr, by simp⟩
  case stepDownReturn =>
    split at hs
    · rw [Service.stepDown_of_group hg] at hs
      by_cases hz : g.wg = 0
      · simp only [hz, if_true, Option.some.injEq] at hs
        subst hs
        exact ⟨⟨g.cancel, rfl, by simpa using he, Group.ctxErr_cancel_of_some g hc⟩, hr,
          by simp [he]⟩
      · simp [hz] at hs
    · simp at hs

theorem failInv_run {e : GoError} {st st1 : LeadState} (acts : List LeadAction)
    (h : FailInv e st) (hr : st.run acts = some st1) (hl : ∀ a ∈ acts, a.isLead = false) :
    FailInv e st1 := by
  induction acts generalizing st with
  | nil =>
    simp only [LeadState.run, Option.some.injEq] at hr
    exact hr ▸ h
  | cons a rest ih =>
    simp only [LeadState.run] at hr
    cases hs : st.step a with
    | none => simp [hs] at hr
    | some st2 =>
      simp only [hs] at hr
      exact ih (failInv_step h hs (hl a (by simp))) hr (fun b hb => hl b (by simp [hb]))

theorem LeadState.remaining_le (st : LeadState) : st.remaining ≤ 11 := by
  unfold LeadState.remaining
  cases st.nodeTask <;> cases st.subTask <;> cases st.reaper <;> cases st.stepDown <;>
    simp <;> (try split) <;> (try split) <;> omega

/-! ## Claims about `lead` and `stepDown` -/

theorem activeSession_reachable : LeadReachable "node-1" activeSession :=
  LeadReachable.runLead .init activeSchedule rfl

theorem LeadState.step_watchReturn_first {nodeID : String} {st st1 : LeadState}
    {a : LeadAction} {e : GoError} (hr : LeadReachable nodeID st)
    (ha : a = .nodeReturn (some e) ∨ a = .subReturn (some e))
    (hctx : ∀ g, st.svc.leadgrp = some g → g.ctxErr = none)
    (hs : st.step a = some st1) : FailInv e st1 ∧ st1.panicked = false := by
  have hi := hr.leadInv
  have hp : st.panicked = false := by
    cases h : st.panicked with
    | false => rfl
    | true => simp [LeadState.step, h] at hs
  have key : ∀ g, st.svc.leadgrp = some g →
      (g.taskReturn (some e)).err = some e ∧
        (g.taskReturn (some e)).ctxErr = some contextCanceled := by
    intro g hg
    have hc := hctx g hg
    have he : g.err = none := by
      cases h : g.err with
      | none => rfl
      | some x =>
        have := hi.errCancels g hg (by simp [h])
        simp [hc] at this
    exact Group.taskReturn_first e he hc
  rcases ha with rfl | rfl
  · have hpc : st.nodeTask = .inStartWatch := by
      by_cases h : st.nodeTask = .inStartWatch
      · exact h
      · simp [LeadState.step, hp, h] at hs
    simp only [LeadState.step, hp, hpc, if_true] at hs
    simp only [Bool.false_eq_true, if_false, Option.some.injEq] at hs
    subst hs
    have hrp : st.reaper ≠ .notLaunched := fun h => by simp [hi.together.1.mpr h] at hpc
    obtain ⟨g, hg⟩ : ∃ g, st.svc.leadgrp = some g := by
      cases h : st.svc.leadgrp with
      | none => exact absurd (hi.nogroup h).2.2.1 hrp
      | some g => exact ⟨g, rfl⟩
    refine ⟨⟨⟨g.taskReturn (some e), by simp [hg], key g hg⟩, by simpa using hrp, ?_⟩,
      by simpa using hp⟩
    intro h
    have := hi.closed (by simpa using h)
    simp [LeadState.drained, hpc] at this
  · have hpc : st.subTask = .inStartWatch := by
      by_cases h : st.subTask = .inStartWatch
      · exact h
      · simp [LeadState.step, hp, h] at hs
    simp only [LeadState.step, hp, hpc, if_true] at hs
    simp only [Bool.false_eq_true, if_false, Option.some.injEq] at hs
    subst hs
    have hrp : st.reaper ≠ .notLaunched := fun h => by simp [hi.together.2.mpr h] at hpc
    obtain ⟨g, hg⟩ : ∃ g, st.svc.leadgrp = some g := by
      cases h : st.svc.leadgrp with
      | none => exact absurd (hi.nogroup h).2.2.1 hrp
      | some g => exact ⟨g, rfl⟩
    refine ⟨⟨⟨g.taskReturn (some e), by simp [hg], key g hg⟩, by simpa using hrp, ?_⟩,
      by simpa using hp⟩
    intro h
    have := hi.closed (by simpa using h)
    simp [LeadState.drained, hpc] at this

theorem LeadState.reaper_enabled {e : GoError} {st : LeadState} (hi : LeadInv st)
    (hf : FailInv e st) (hn : st.reaper ≠ .returned) :
    ∃ b st1, st.step b = some st1 ∧
      (b = .reaperWake ∨ b = .reaperStopNode ∨ b = .reaperStopSub ∨ b = .reaperReturn) := by
  obtain ⟨g, hg, _, hc⟩ := hf.grp
  have hp : st.panicked = false := by
    cases h : st.panicked with
    | false => rfl
    | true => simp [hi.sound h] at hg
  cases hr : st.reaper with
  | notLaunched => exact absurd hr hf.launched
  | returned => exact absurd hr hn
  | waiting =>
    have h : (st.step .reaperWake).isSome = true := by
      simp [LeadState.step, hp, hg, hr, hc]
    obtain ⟨st1, h1⟩ := Option.isSome_iff_exists.mp h
    exact ⟨_, st1, h1, Or.inl rfl⟩
  | woken =>
    have h : (st.step .reaperStopNode).isSome = true := by
      simp [LeadState.step, hp, hr]
    obtain ⟨st1, h1⟩ := Option.isSome_iff_exists.mp h
    exact ⟨_, st1, h1, Or.inr (Or.inl rfl)⟩
  | stoppedNode =>
    have h : (st.step .reaperStopSub).isSome = true := by
      simp [LeadState.step, hp, hr]
    obtain ⟨st1, h1⟩ := Option.isSome_iff_exists.mp h
    exact ⟨_, st1, h1, Or.inr (Or.inr (Or.inl rfl))⟩
  | stoppedSub =>
    have h : (st.step .reaperReturn).isSome = true := by
      simp [LeadState.step, hp, hg, hr]
    obtain ⟨st1, h1⟩ := Option.isSome_iff_exists.mp h
    exact ⟨_, st1, h1, Or.inr (Or.inr (Or.inr rfl))⟩

/-- C6 (first failure wins): in a reachable state whose session scope is not cancelled, let
a watch goroutine (node or subscription) return the non-nil error `e` from `StartWatch`.
Then the session scope is cancelled and the group keeps `e`; in every continuation within
the session (no new `lead`) the group still holds `e`, the reaper is never blocked before
it returns, a reaper that has returned has invoked `StopWatch` on both watchers, and a
`stepDown` that has returned got `e` from `Wait`; and the draining schedule does run to
the end: the reaper returns after invoking `StopWatch` on both watchers and `Wait` yields
`e`. -/
theorem lead_first_failure_wins (nodeID : String) (st st1 : LeadState) (a : LeadAction)
    (e : GoError) (hr : LeadReachable nodeID st)
    (ha : a = .nodeReturn (some e) ∨ a = .subReturn (some e))
    (hctx : ∀ g, st.svc.leadgrp = some g → g.ctxErr = none)
    (hs : st.step a = some st1) :
    (∃ g1, st1.svc.leadgrp = some g1 ∧ g1.err = some e ∧
      g1.ctxErr = some contextCanceled) ∧
    (∀ acts st2, st1.run acts = some st2 → (∀ b ∈ acts, b.isLead = false) →
      (∃ g2, st2.svc.leadgrp = some g2 ∧ g2.err = some e ∧
        g2.ctxErr = some contextCanceled) ∧
      (st2.reaper ≠ .returned → ∃ b st3, st2.step b = some st3 ∧
        (b = .reaperWake ∨ b = .reaperStopNode ∨ b = .reaperStopSub ∨ b = .reaperReturn)) ∧
      (st2.reaper = .returned →
        stopWatchInvoked st2.nodeWatcher ∧ stopWatchInvoked st2.subWatcher) ∧
      (st2.stepDown = .returned → st2.waitResult = some (some e))) ∧
    (∃ st2, st1.run (st1.drainSchedule 11) = some st2 ∧ st2.reaper = .returned ∧
      stopWatchInvoked st2.nodeWatcher ∧ stopWatchInvoked st2.subWatcher ∧
      st2.stepDown = .returned ∧ st2.waitResult = some (some e)) := by
  obtain ⟨hf, hp1⟩ := LeadState.step_watchReturn_first hr ha hctx hs
  have hr1 : LeadReachable nodeID st1 := LeadReachable.step a hr hs
  refine ⟨hf.grp, ?_, ?_⟩
  · intro acts st2 hrun hl
    have hf2 := failInv_run acts hf hrun hl
    have hs2 := (hr1.runLead acts hrun).stopInv
    refine ⟨hf2.grp, ?_, fun h => ⟨hs2.node (by simp [h, ReaperPC.pastNode]),
      hs2.sub (by simp [h, ReaperPC.pastSub])⟩, hf2.wait⟩
    intro hnr
    exact LeadState.reaper_enabled (hr1.runLead acts hrun).leadInv hf2 hnr
  · obtain ⟨g1, hg1, _, _⟩ := hf.grp
    obtain ⟨st2, hrun, hret, _, hl⟩ :=
      LeadState.drain_returns 11 hr1.leadInv hp1 hg1 st1.remaining_le
    have hf2 := failInv_run _ hf hrun hl
    have hr2 := hr1.runLead _ hrun
    have hrp : st2.reaper = .returned := by
      have hd := hr2.leadInv.closed hret
      simp only [LeadState.drained, Bool.and_eq_true, Bool.or_eq_true, beq_iff_eq] at hd
      rcases hd.2 with h | h
      · exact absurd h hf2.launched
      · exact h
    exact ⟨st2, hrun, hrp, hr2.stopInv.node (by simp [hrp, ReaperPC.pastNode]),
      hr2.stopInv.sub (by simp [hrp, ReaperPC.pastSub]), hret, hf2.wait hret⟩

/-- C6 at the active session of node `node-1`, whose node watch fails with
`watchFailure`: the hypotheses hold there, and so does the conclusion about the drain. -/
theorem lead_first_failure_wins_witness :
    LeadReachable "node-1" activeSession ∧
    (∀ g, activeSession.svc.leadgrp = some g → g.ctxErr = none) ∧
    activeSession.step (.nodeReturn (some watchFailure)) = some failedSession ∧
    (∃ st2, failedSession.run (failedSession.drainSchedule 11) = some st2 ∧
      st2.reaper = .returned ∧
      stopWatchInvoked st2.nodeWatcher ∧ stopWatchInvoked st2.subWatcher ∧
      st2.stepDown = .returned ∧ st2.waitResult = some (some watchFailure)) :=
  have hctx : ∀ g, activeSession.svc.leadgrp = some g → g.ctxErr = none := by
    intro g hg
    simp only [activeSession, NewService, Option.some.injEq] at hg
    subst hg
    rfl
  ⟨activeSession_reachable, hctx, rfl,
    (lead_first_failure_wins "node-1" activeSession failedSession
      (.nodeReturn (some watchFailure)) watchFailure activeSession_reachable (Or.inl rfl)
      hctx rfl).2.2⟩

/-- C7 (Idle to Active): for every state and every leading context, when both
registrations succeed `lead` leaves in `c.leadgrp` a fresh group whose scope derives from
the context and whose counter is three, has handed the registry exactly the two
`keyprefix` configurations over `/registry/nodes` and `/registry/subscriptions`, has
launched the two `StartWatch` goroutines and the reaper (none of which has returned, so a
`Wait` on the group would block), and has returned nil; when the first or the second
registration fails with `e`, it returns `e` with no goroutine launched and the counter at
zero. -/
theorem lead_idle_to_active (st : LeadState) (ctxErr : Option GoError) :
    ((lead st ctxErr none none).svc.leadgrp = some (Group.withContext ctxErr).go.go.go ∧
      (Group.withContext ctxErr).go.go.go = ⟨3, none, ctxErr⟩ ∧
      (lead st ctxErr none none).watchLog =
        [⟨"keyprefix", "/registry/nodes"⟩, ⟨"keyprefix", "/registry/subscriptions"⟩] ∧
      (lead st ctxErr none none).nodeWatcher =
        some ⟨⟨"keyprefix", "/registry/nodes"⟩, 0, 0⟩ ∧
      (lead st ctxErr none none).subWatcher =
        some ⟨⟨"keyprefix", "/registry/subscriptions"⟩, 0, 0⟩ ∧
      (lead st ctxErr none none).nodeTask = .launched ∧
      (lead st ctxErr none none).subTask = .launched ∧
      (lead st ctxErr none none).reaper = .waiting ∧
      (lead st ctxErr none none).leadRet = some none ∧
      (lead st ctxErr none none).svc.stepDown = .blocked) ∧
    (∀ e subReg,
      (lead st ctxErr (some e) subReg).leadRet = some (some e) ∧
      (lead st ctxErr (some e) subReg).svc.leadgrp = some ⟨0, none, ctxErr⟩ ∧
      (lead st ctxErr (some e) subReg).nodeTask = .notLaunched ∧
      (lead st ctxErr (some e) subReg).subTask = .notLaunched ∧
      (lead st ctxErr (some e) subReg).reaper = .notLaunched) ∧
    (∀ e,
      (lead st ctxErr none (some e)).leadRet = some (some e) ∧
      (lead st ctxErr none (some e)).svc.leadgrp = some ⟨0, none, ctxErr⟩ ∧
      (lead st ctxErr none (some e)).nodeTask = .notLaunched ∧
      (lead st ctxErr none (some e)).subTask = .notLaunched ∧
      (lead st ctxErr none (some e)).reaper = .notLaunched) := by
  refine ⟨⟨rfl, rfl, rfl, rfl, rfl, rfl, rfl, rfl, rfl, rfl⟩, ?_, ?_⟩
  · intro e subReg
    exact ⟨rfl, rfl, rfl, rfl, rfl⟩
  · intro e
    exact ⟨rfl, rfl, rfl, rfl, rfl⟩

/-- C10 (precondition of `stepDown`): on a service fresh from `NewService` the group is
nil and `stepDown` faults (the call panics the process); after any `lead` call
`c.leadgrp` is set and `stepDown` does not fault; and in every reachable state with
`c.leadgrp` set, a call of `stepDown` does not fault and, under the draining schedule,
returns. -/
theorem stepDown_precondition (nodeID : String) :
    ((NewService nodeID).leadgrp = none ∧ (NewService nodeID).stepDown = .fault) ∧
    (∃ st1, (LeadState.init nodeID).step .stepDownCall = some st1 ∧ st1.panicked = true ∧
      ∀ a, st1.step a = none) ∧
    (∀ st ctxErr nodeReg subReg,
      (lead st ctxErr nodeReg subReg).svc.leadgrp ≠ none ∧
      (lead st ctxErr nodeReg subReg).svc.stepDown ≠ .fault) ∧
    (∀ st, LeadReachable nodeID st → st.svc.leadgrp ≠ none → st.stepDown ≠ .waiting →
      st.svc.stepDown ≠ .fault ∧
      ∃ st1, st.step .stepDownCall = some st1 ∧ st1.panicked = false ∧
        ∃ st2, st1.run (st1.drainSchedule 11) = some st2 ∧ st2.stepDown = .returned ∧
          st2.panicked = false) := by
  refine ⟨⟨rfl, rfl⟩, ⟨_, rfl, rfl, fun a => rfl⟩, ?_, ?_⟩
  · intro st ctxErr nodeReg subReg
    cases nodeReg <;> cases subReg <;> simp [lead, registryWatch, Service.stepDown] <;>
      try (split <;> simp)
  · intro st hr hg hsd
    have hi := hr.leadInv
    obtain ⟨g, hg⟩ := Option.ne_none_iff_exists'.mp hg
    have hp : st.panicked = false := by
      cases h : st.panicked with
      | false => rfl
      | true => simp [hi.sound h] at hg
    have hnf : st.svc.stepDown ≠ .fault := by
      rw [Service.stepDown_of_group hg]
      split <;> simp
    have hstep : st.step .stepDownCall = some { st with stepDown := .waiting } := by
      simp only [LeadState.step, hp, Bool.false_eq_true, if_false, hsd]
    refine ⟨hnf, _, hstep, hp, ?_⟩
    obtain ⟨st2, hrun, hret, hp2, _⟩ :=
      LeadState.drain_returns 11 (leadInv_step hi hstep) hp (g := g) hg
        (LeadState.remaining_le _)
    exact ⟨st2, hrun, hret, hp2⟩

/-- C10 at the active session of node `node-1`: `c.leadgrp` is set, no `stepDown` is
pending, a call of `stepDown` does not fault and returns under the draining schedule. -/
theorem stepDown_precondition_witness :
    LeadReachable "node-1" activeSession ∧ activeSession.svc.leadgrp ≠ none ∧
    activeSession.stepDown ≠ .waiting ∧
    (activeSession.svc.stepDown ≠ .fault ∧
      ∃ st1, activeSession.step .stepDownCall = some st1 ∧ st1.panicked = false ∧
        ∃ st2, st1.run (st1.drainSchedule 11) = some st2 ∧ st2.stepDown = .returned ∧
          st2.panicked = false) :=
  ⟨activeSession_reachable, by decide, by decide,
    (stepDown_precondition "node-1").2.2.2 activeSession activeSession_reachable
      (by decide) (by decide)⟩

/-! ## Hand-off -/

theorem taskInv_step {st st1 : LeadState} {a : LeadAction} (h : TaskInv st)
    (hs : st.step a = some st1) (ha : a.isTask = true) :
    TaskInv st1 ∧ TaskFrame st st1 := by
  obtain ⟨hc, hg⟩ := h
  unfold LeadState.step at hs
  split at hs
  · simp at hs
  cases a <;> simp only at hs
  case lead => simp [LeadAction.isTask] at ha
  case stepDownCall => simp [LeadAction.isTask] at ha
  case stepDownReturn => simp [LeadAction.isTask] at ha
  case ctxCancel e =>
    split at hs
    · simp at hs
    · rename_i g hl
      simp only [Option.some.injEq] at hs
      subst hs
      refine ⟨⟨?_, ?_⟩, ⟨Iff.rfl, Iff.rfl, Iff.rfl, id, id, id, rfl⟩⟩
      · intro g1 hg1
        simp only [LeadState.withGroup_leadgrp, hl, Option.map_some', Option.some.injEq] at hg1
        subst hg1
        simpa using hc g hl
      · simp [hl]
  case nodeStart =>
    split at hs
    · rename_i hpc
      split at hs
      · simp only [Option.some.injEq] at hs
        subst hs
        exact ⟨⟨hc, hg⟩, ⟨Iff.rfl, Iff.rfl, Iff.rfl, id, id, id, rfl⟩⟩
      · simp only [Option.some.injEq] at hs
        subst hs
        refine ⟨⟨?_, ?_⟩, ⟨by simp [hpc], Iff.rfl, Iff.rfl, by simp [hpc], id, id, rfl⟩⟩
        · intro g hl
          have := hc g hl
          simp [hpc, WatchTaskPC.live] at this ⊢
          omega
        · intro hl
          have := (hg hl).1
          simp [hpc] at this
    · simp at hs
  case subStart =>
    split at hs
    · rename_i hpc
      split at hs
      · simp only [Option.some.injEq] at hs
        subst hs
        exact ⟨⟨hc, hg⟩, ⟨Iff.rfl, Iff.rfl, Iff.rfl, id, id, id, rfl⟩⟩
      · simp only [Option.some.injEq] at hs
        subst hs
        refine ⟨⟨?_, ?_⟩, ⟨Iff.rfl, by simp [hpc], Iff.rfl, id, by simp [hpc], id, rfl⟩⟩
        · intro g hl
          have := hc g hl
          simp [hpc, WatchTaskPC.live] at this ⊢
          omega
        · intro hl
          have := (hg hl).2.1
          simp [hpc] at this
    · simp at hs
  case nodeReturn r =>
    split at hs
    · rename_i hpc
      simp only [Option.some.injEq] at hs
      subst hs
      cases hl : st.svc.leadgrp with
      | none => simp [(hg hl).1] at hpc
      | some g0 =>
        have h0 := hc g0 hl
        refine ⟨⟨?_, by simp [hl]⟩, ⟨by simp [hpc], Iff.rfl, Iff.rfl, fun _ => rfl, id, id, rfl⟩⟩
        intro g hg1
        simp only [LeadState.withGroup_leadgrp, hl, Option.map_some', Option.some.injEq] at hg1
        subst hg1
        simp [hpc, WatchTaskPC.live] at h0 ⊢
        omega
    · simp at hs
  case subReturn r =>
    split at hs
    · rename_i hpc
      simp only [Option.some.injEq] at hs
      subst hs
      cases hl : st.svc.leadgrp with
      | none => simp [(hg hl).2.1] at hpc
      | some g0 =>
        have h0 := hc g0 hl
        refine ⟨⟨?_, by simp [hl]⟩, ⟨Iff.rfl, by simp [hpc], Iff.rfl, id, fun _ => rfl, id, rfl⟩⟩
        intro g hg1
        simp only [LeadState.withGroup_leadgrp, hl, Option.map_some', Option.some.injEq] at hg1
        subst hg1
        simp [hpc, WatchTaskPC.live] at h0 ⊢
        omega
    · simp at hs
  case reaperWake =>
    split at hs
    · simp at hs
    · rename_i g0 hl
      split at hs
      · rename_i hpc
        simp only [Option.some.injEq] at hs
        subst hs
        refine ⟨⟨?_, by simp [hl]⟩,
          ⟨Iff.rfl, Iff.rfl, by simp [hpc.1], id, id, by simp [hpc.1], rfl⟩⟩
        intro g hg1
        have := hc g hg1
        simp [hpc.1, ReaperPC.live] at this ⊢
        omega
      · simp at hs
  case reaperStopNode =>
    split at hs
    · rename_i hpc
      simp only [Option.some.injEq] at hs
      subst hs
      refine ⟨⟨?_, ?_⟩, ⟨Iff.rfl, Iff.rfl, by simp [hpc], id, id, by simp [hpc], rfl⟩⟩
      · intro g hg1
        have := hc g hg1
        simp [hpc, ReaperPC.live] at this ⊢
        omega
      · intro hl
        have := (hg hl).2.2
        simp [hpc] at this
    · simp at hs
  case reaperStopSub =>
    split at hs
    · rename_i hpc
      simp only [Option.some.injEq] at hs
      subst hs
      refine ⟨⟨?_, ?_⟩, ⟨Iff.rfl, Iff.rfl, by simp [hpc], id, id, by simp [hpc], rfl⟩⟩
      · intro g hg1
        have := hc g hg1
        simp [hpc, ReaperPC.live] at this ⊢
        omega
      · intro hl
        have := (hg hl).2.2
        simp [hpc] at this
    · simp at hs
  case reaperReturn =>
    split at hs
    · simp at hs
    · rename_i g0 hl
      split at hs
      · rename_i hpc
        simp only [Option.some.injEq] at hs
        subst hs
        have h0 := hc g0 hl
        refine ⟨⟨?_, by simp [hl]⟩,
          ⟨Iff.rfl, Iff.rfl, by simp [hpc], id, id, fun _ => rfl, rfl⟩⟩
        intro g hg1
        simp only [LeadState.withGroup_leadgrp, hl, Option.map_some', Option.some.injEq] at hg1
        subst hg1
        simp [hpc, ReaperPC.live] at h0 ⊢
        omega
      · simp at hs

theorem handoffInv_init (nodeID : String) : HandoffInv (HandoffState.init nodeID) := by
  refine ⟨⟨?_, ?_⟩, ?_, ?_, ?_, ?_, ?_⟩ <;>
    simp [HandoffState.init, LeadState.init, NewService, LeadCallPC.pastGoNode,
      LeadCallPC.pastGoSub, LeadCallPC.pastGoReaper]

theorem Service.leadgrpGo_eq {c c1 : Service} (h : c.leadgrpGo = some c1) :
    ∃ g, c.leadgrp = some g ∧ c1.leadgrp = some g.go := by
  unfold Service.leadgrpGo at h
  split at h
  · simp at h
  · rename_i g hg
    simp only [Option.some.injEq] at h
    subst h
    exact ⟨g, hg, rfl⟩

theorem handoffInv_step {s s1 : HandoffState} {a : HandoffAction} (h : HandoffInv s)
    (hs : s.step a = some s1) : HandoffInv s1 := by
  obtain ⟨⟨hc, hg⟩, hn, hb, hr, hafter, hclosed⟩ := h
  have hzero : s.leadCall ≠ .returned none → s.waitingAfter = 0 ∧ s.returnedAfter = 0 := by
    intro hne
    by_contra hcon
    exact hne (hafter (by omega))
  unfold HandoffState.step at hs
  split at hs
  · simp at hs
  cases a <;> simp only at hs
  case leadStore ctxErr =>
    split at hs
    · rename_i hpc
      simp only [Option.some.injEq] at hs
      subst hs
      have z := hzero (by simp [hpc])
      simp only [hpc, LeadCallPC.pastGoNode, LeadCallPC.pastGoSub, LeadCallPC.pastGoReaper,
        iff_true] at hn hb hr
      refine ⟨⟨?_, ?_⟩, ?_, ?_, ?_, ?_, ?_⟩
      · intro g hg1
        simp only [Option.some.injEq] at hg1
        subst hg1
        simp [hn, hb, hr, Group.withContext, WatchTaskPC.live, ReaperPC.live]
      · simp
      · simpa [LeadCallPC.pastGoNode] using hn
      · simpa [LeadCallPC.pastGoSub] using hb
      · simpa [LeadCallPC.pastGoReaper] using hr
      · simp [z.1, z.2]
      · simp [z.2]
    · simp at hs
  case leadWatchNodes r =>
    split at hs
    · rename_i hpc
      have z := hzero (by simp [hpc])
      simp only [hpc, LeadCallPC.pastGoNode, LeadCallPC.pastGoSub, LeadCallPC.pastGoReaper,
        iff_true] at hn hb hr
      cases r <;>
      · simp only [registryWatch, Option.some.injEq] at hs
        subst hs
        exact ⟨⟨hc, hg⟩, by simpa [LeadCallPC.pastGoNode] using hn,
          by simpa [LeadCallPC.pastGoSub] using hb,
          by simpa [LeadCallPC.pastGoReaper] using hr, by simp [z.1, z.2], by simp [z.2]⟩
    · simp at hs
  case leadWatchSubs r =>
    split at hs
    · rename_i hpc
      have z := hzero (by simp [hpc])
      simp only [hpc, LeadCallPC.pastGoNode, LeadCallPC.pastGoSub, LeadCallPC.pastGoReaper,
        iff_true] at hn hb hr
      cases r <;>
      · simp only [registryWatch, Option.some.injEq] at hs
        subst hs
        exact ⟨⟨hc, hg⟩, by simpa [LeadCallPC.pastGoNode] using hn,
          by simpa [LeadCallPC.pastGoSub] using hb,
          by simpa [LeadCallPC.pastGoReaper] using hr, by simp [z.1, z.2], by simp [z.2]⟩
    · simp at hs
  case leadGoNode =>
    split at hs
    · rename_i hpc
      have z := hzero (by simp [hpc])
      simp only [hpc, LeadCallPC.pastGoNode, LeadCallPC.pastGoSub, LeadCallPC.pastGoReaper,
        iff_true] at hn hb hr
      split at hs
      · simp only [Option.some.injEq] at hs
        subst hs
        exact ⟨⟨hc, hg⟩, by simpa [hpc, LeadCallPC.pastGoNode] using hn,
          by simpa [hpc, LeadCallPC.pastGoSub] using hb,
          by simpa [hpc, LeadCallPC.pastGoReaper] using hr, hafter, hclosed⟩
      · rename_i c hgo
        obtain ⟨g, hg0, hg1⟩ := Service.leadgrpGo_eq hgo
        simp only [Option.some.injEq] at hs
        subst hs
        have h0 := hc g hg0
        refine ⟨⟨?_, by simp [hg1]⟩, by simp [LeadCallPC.pastGoNode],
          by simpa [LeadCallPC.pastGoSub] using hb,
          by simpa [LeadCallPC.pastGoReaper] using hr, by simp [z.1, z.2], by simp [z.2]⟩
        intro g2 hg2
        simp only [hg1, Option.some.injEq] at hg2
        subst hg2
        simp [hn, hb, hr, WatchTaskPC.live, ReaperPC.live, Group.go] at h0 ⊢
        omega
    · simp at hs
  case leadGoSub =>
    split at hs
    · rename_i hpc
      have z := hzero (by simp [hpc])
      simp only [hpc, LeadCallPC.pastGoNode, LeadCallPC.pastGoSub, LeadCallPC.pastGoReaper,
        iff_true] at hn hb hr
      split at hs
      · simp only [Option.some.injEq] at hs
        subst hs
        exact ⟨⟨hc, hg⟩, by simpa [hpc, LeadCallPC.pastGoNode] using hn,
          by simpa [hpc, LeadCallPC.pastGoSub] using hb,
          by simpa [hpc, LeadCallPC.pastGoReaper] using hr, hafter, hclosed⟩
      · rename_i c hgo
        obtain ⟨g, hg0, hg1⟩ := Service.leadgrpGo_eq hgo
        simp only [Option.some.injEq] at hs
        subst hs
        have h0 := hc g hg0
        refine ⟨⟨?_, by simp [hg1]⟩, by simpa [LeadCallPC.pastGoNode] using hn,
          by simp [LeadCallPC.pastGoSub],
          by simpa [LeadCallPC.pastGoReaper] using hr, by simp [z.1, z.2], by simp [z.2]⟩
        intro g2 hg2
        simp only [hg1, Option.some.injEq] at hg2
        subst hg2
        simp [hb, hr, WatchTaskPC.live, ReaperPC.live, Group.go] at h0 ⊢
        omega
    · simp at hs
  case leadGoReaper =>
    split at hs
    · rename_i hpc
      have z := hzero (by simp [hpc])
      simp only [hpc, LeadCallPC.pastGoNode, LeadCallPC.pastGoSub, LeadCallPC.pastGoReaper,
        iff_true] at hn hb hr
      split at hs
      · simp only [Option.some.injEq] at hs
        subst hs
        exact ⟨⟨hc, hg⟩, by simpa [hpc, LeadCallPC.pastGoNode] using hn,
          by simpa [hpc, LeadCallPC.pastGoSub] using hb,
          by simpa [hpc, LeadCallPC.pastGoReaper] using hr, hafter, hclosed⟩
      · rename_i c hgo
        obtain ⟨g, hg0, hg1⟩ := Service.leadgrpGo_eq hgo
        simp only [Option.some.injEq] at hs
        subst hs
        have h0 := hc g hg0
        refine ⟨⟨?_, by simp [hg1]⟩, by simpa [LeadCallPC.pastGoNode] using hn,
          by simpa [LeadCallPC.pastGoSub] using hb,
          by simp [LeadCallPC.pastGoReaper], by simp [z.1, z.2], by simp [z.2]⟩
        intro g2 hg2
        simp only [hg1, Option.some.injEq] at hg2
        subst hg2
        simp [hr, ReaperPC.live, Group.go] at h0 ⊢
        omega
    · simp at hs
  case leadReturn =>
    split at hs
    · rename_i hpc
      have z := hzero (by simp [hpc])
      simp only [hpc, LeadCallPC.pastGoNode, LeadCallPC.pastGoSub, LeadCallPC.pastGoReaper]
        at hn hb hr
      simp only [Option.some.injEq] at hs
      subst hs
      exact ⟨⟨hc, hg⟩, by simpa [LeadCallPC.pastGoNode] using hn,
        by simpa [LeadCallPC.pastGoSub] using hb,
        by simpa [LeadCallPC.pastGoReaper] using hr, by simp, by simp [z.2]⟩
    · simp at hs
  case task a =>
    split at hs
    · rename_i ha
      split at hs
      · simp at hs
      · rename_i b hb1
        simp only [Option.some.injEq] at hs
        subst hs
        obtain ⟨ht, hf⟩ := taskInv_step ⟨hc, hg⟩ hb1 ha
        refine ⟨ht, hf.node.trans hn, hf.sub.trans hb, hf.reaper.trans hr, hafter, ?_⟩
        intro hp
        obtain ⟨c1, c2, c3⟩ := hclosed hp
        exact ⟨hf.nodeDone c1, hf.subDone c2, hf.reaperDone c3⟩
    · simp at hs
  case stepDownCall =>
    split at hs
    · simp only [Option.some.injEq] at hs
      subst hs
      exact ⟨⟨hc, hg⟩, hn, hb, hr, hafter, hclosed⟩
    · split at hs
      · rename_i hpc
        simp only [Option.some.injEq] at hs
        subst hs
        exact ⟨⟨hc, hg⟩, hn, hb, hr, fun _ => hpc, hclosed⟩
      · simp only [Option.some.injEq] at hs
        subst hs
        exact ⟨⟨hc, hg⟩, hn, hb, hr, hafter, hclosed⟩
  case stepDownReturn afterLead =>
    cases hl : s.base.svc.leadgrp with
    | none => simp [Service.stepDown, hl] at hs
    | some g =>
      rw [Service.stepDown_of_group hl] at hs
      by_cases hz : g.wg = 0
      · simp only [hz, if_true] at hs
        have h0 := hc g hl
        have t1 : TaskInv { s.base with svc := { s.base.svc with leadgrp := some g.cancel },
                                        waitResult := some g.err } := by
          refine ⟨?_, by simp⟩
          intro g1 hg1
          simp only [Option.some.injEq] at hg1
          subst hg1
          simpa using h0
        split at hs
        · split at hs
          · rename_i hw
            simp only [Option.some.injEq] at hs
            subst hs
            have hret := hafter (by omega)
            simp only [hret, LeadCallPC.pastGoNode, LeadCallPC.pastGoSub,
              LeadCallPC.pastGoReaper] at hn hb hr
            have e1 := WatchTaskPC.watch_live_eq_zero (p := s.base.nodeTask) (by omega)
            have e2 := WatchTaskPC.watch_live_eq_zero (p := s.base.subTask) (by omega)
            have e3 := ReaperPC.reaper_live_eq_zero (p := s.base.reaper) (by omega)
            refine ⟨t1, by simpa [hret, LeadCallPC.pastGoNode] using hn,
              by simpa [hret, LeadCallPC.pastGoSub] using hb,
              by simpa [hret, LeadCallPC.pastGoReaper] using hr, fun _ => hret, fun _ => ?_⟩
            refine ⟨?_, ?_, ?_⟩
            · rcases e1 with e | e
              · simp [e] at hn
              · exact e
            · rcases e2 with e | e
              · simp [e] at hb
              · exact e
            · rcases e3 with e | e
              · simp [e] at hr
              · exact e
          · simp at hs
        · split at hs
          · simp only [Option.some.injEq] at hs
            subst hs
            exact ⟨t1, hn, hb, hr, hafter, hclosed⟩
          · simp at hs
      · simp [hz] at hs

theorem HandoffReachable.handoffInv {nodeID : String} {s : HandoffState}
    (h : HandoffReachable nodeID s) : HandoffInv s := by
  induction h with
  | init => exact handoffInv_init nodeID
  | step a _ hs ih => exact handoffInv_step ih hs

theorem HandoffReachable.runHandoff {nodeID : String} {s s1 : HandoffState}
    (h : HandoffReachable nodeID s) (acts : List HandoffAction)
    (hr : s.run acts = some s1) : HandoffReachable nodeID s1 := by
  induction acts generalizing s with
  | nil =>
    simp only [HandoffState.run, Option.some.injEq] at hr
    exact hr ▸ h
  | cons a rest ih =>
    simp only [HandoffState.run] at hr
    cases hs : s.step a with
    | none => simp [hs] at hr
    | some s2 =>
      simp only [hs] at hr
      exact ih (HandoffReachable.step a h hs) hr

/-- The statements of `lead`, run one after the other with nothing in between, do what
the function `lead` does. -/
theorem leadStatements_eq_lead (s : HandoffState) (ctxErr : Option GoError)
    (hp : s.base.panicked = false) (hc : s.leadCall = .notCalled) :
    s.run (leadStatements ctxErr) =
      some { s with base := lead s.base ctxErr none none, leadCall := .returned none } := by
  simp [HandoffState.run, leadStatements, HandoffState.step, hp, hc, registryWatch,
    Service.leadgrpGo, lead, Group.go]

/-- C5 as stated fails: on node `node-1`, let `stepDown` be called right after the first
statement of `lead` (the store into `c.leadgrp`). Its `Wait` finds the counter at zero and
returns; `lead` then registers its watches, launches its three goroutines and returns nil.
The session has started, `stepDown` has returned, and none of the three goroutines
has. -/
theorem stepDown_returns_during_lead :
    (HandoffState.init "node-1").run earlyStepDownSchedule = some earlyStepDown ∧
    earlyStepDown.leadCall = .returned none ∧ earlyStepDown.base.leadRet = some none ∧
    earlyStepDown.returnedEarly = 1 ∧
    earlyStepDown.base.nodeTask = .launched ∧ earlyStepDown.base.subTask = .launched ∧
    earlyStepDown.base.reaper = .waiting :=
  ⟨rfl, rfl, rfl, rfl, rfl, rfl, rfl⟩

/-- C5 (amended): whatever the interleaving of the statements of `lead`, of the calls of
`stepDown` and of the goroutines, a call of `stepDown` made after `lead` has returned nil
does not return until both watch goroutines and the reaper have returned: when such a
call has returned all three have, its `Wait` can return only in a state where all three
have, and from the return of `lead` on `stepDown` is blocked exactly while one of the
three has not returned. -/
theorem stepDown_waits_after_lead (nodeID : String) (s : HandoffState)
    (hr : HandoffReachable nodeID s) :
    (0 < s.returnedAfter →
      s.base.nodeTask = .returned ∧ s.base.subTask = .returned ∧
        s.base.reaper = .returned) ∧
    (∀ s1, s.step (.stepDownReturn true) = some s1 →
      s.base.nodeTask = .returned ∧ s.base.subTask = .returned ∧
        s.base.reaper = .returned) ∧
    (s.leadCall = .returned none →
      (s.base.svc.stepDown = .blocked ↔
        ¬ (s.base.nodeTask = .returned ∧ s.base.subTask = .returned ∧
          s.base.reaper = .returned))) := by
  have hi := hr.handoffInv
  refine ⟨hi.closed, ?_, ?_⟩
  · intro s1 hs
    have hi1 := handoffInv_step hi hs
    unfold HandoffState.step at hs
    split at hs
    · simp at hs
    simp only at hs
    split at hs
    · simp only [if_true] at hs
      split at hs
      · simp only [Option.some.injEq] at hs
        subst hs
        exact hi1.closed (by simp)
      · simp at hs
    · simp at hs
  · intro hret
    have hn := hi.node
    have hb := hi.sub
    have hrp := hi.reaper
    simp only [hret, LeadCallPC.pastGoNode, LeadCallPC.pastGoSub, LeadCallPC.pastGoReaper]
      at hn hb hrp
    cases hl : s.base.svc.leadgrp with
    | none =>
      have := (hi.tasks.grouped hl).1
      simp [this] at hn
    | some g =>
      have hc := hi.tasks.counter g hl
      rw [Service.stepDown_of_group hl]
      by_cases hz : g.wg = 0
      · simp only [hz, if_true]
        have e1 := WatchTaskPC.watch_live_eq_zero (p := s.base.nodeTask) (by omega)
        have e2 := WatchTaskPC.watch_live_eq_zero (p := s.base.subTask) (by omega)
        have e3 := ReaperPC.reaper_live_eq_zero (p := s.base.reaper) (by omega)
        have f1 : s.base.nodeTask = .returned := by
          rcases e1 with e | e
          · simp [e] at hn
          · exact e
        have f2 : s.base.subTask = .returned := by
          rcases e2 with e | e
          · simp [e] at hb
          · exact e
        have f3 : s.base.reaper = .returned := by
          rcases e3 with e | e
          · simp [e] at hrp
          · exact e
        simp [f1, f2, f3]
      · simp only [hz, if_false, true_iff]
        rintro ⟨f1, f2, f3⟩
        simp [f1, f2, f3, WatchTaskPC.live, ReaperPC.live] at hc
        exact hz hc

/-- C5 (amended) on node `node-1`, at the end of `lateStepDownSchedule`: the state is
reachable, a `stepDown` called after `lead` has returned, and the three goroutines have
returned. -/
theorem stepDown_waits_after_lead_witness :
    HandoffReachable "node-1" lateStepDown ∧ 0 < lateStepDown.returnedAfter ∧
    (lateStepDown.base.nodeTask = .returned ∧ lateStepDown.base.subTask = .returned ∧
      lateStepDown.base.reaper = .returned) :=
  have hr : HandoffReachable "node-1" lateStepDown :=
    HandoffReachable.runHandoff .init lateStepDownSchedule rfl
  ⟨hr, by decide, (stepDown_waits_after_lead "node-1" lateStepDown hr).1 (by decide)⟩

/-! ## Invariant of the top-level part -/

@[simp] theorem TopState.topGroup_workgrp (st : TopState) (f : Group → Group) :
    (st.withGroup f).svc.workgrp = st.svc.workgrp.map f := rfl

@[simp] theorem TopState.topGroup_nodeID (st : TopState) (f : Group → Group) :
    (st.withGroup f).svc.nodeID = st.svc.nodeID := rfl

@[simp] theorem TopState.topGroup_doneChClosed (st : TopState) (f : Group → Group) :
    (st.withGroup f).svc.doneChClosed = st.svc.doneChClosed := rfl

@[simp] theorem TopState.topGroup_stopChClosed (st : TopState) (f : Group → Group) :
    (st.withGroup f).svc.stopChClosed = st.svc.stopChClosed := rfl

@[simp] theorem TopState.topGroup_ctxErr (st : TopState) (f : Group → Group) :
    (st.withGroup f).ctxErr = st.ctxErr := rfl

@[simp] theorem TopState.topGroup_watcher (st : TopState) (f : Group → Group) :
    (st.withGroup f).watcher = st.watcher := rfl

@[simp] theorem TopState.topGroup_election (st : TopState) (f : Group → Group) :
    (st.withGroup f).election = st.election := rfl

@[simp] theorem TopState.topGroup_selfWatch (st : TopState) (f : Group → Group) :
    (st.withGroup f).selfWatch = st.selfWatch := rfl

@[simp] theorem TopState.topGroup_listener (st : TopState) (f : Group → Group) :
    (st.withGroup f).listener = st.listener := rfl

@[simp] theorem TopState.topGroup_signal (st : TopState) (f : Group → Group) :
    (st.withGroup f).signal = st.signal := rfl

@[simp] theorem TopState.topGroup_start (st : TopState) (f : Group → Group) :
    (st.withGroup f).start = st.start := rfl

@[simp] theorem TopState.topGroup_watchLog (st : TopState) (f : Group → Group) :
    (st.withGroup f).watchLog = st.watchLog := rfl

@[simp] theorem TopState.topGroup_doneCloses (st : TopState) (f : Group → Group) :
    (st.withGroup f).doneCloses = st.doneCloses := rfl

@[simp] theorem TopState.topGroup_stopWaiting (st : TopState) (f : Group → Group) :
    (st.withGroup f).stopWaiting = st.stopWaiting := rfl

@[simp] theorem TopState.topGroup_stopReturned (st : TopState) (f : Group → Group) :
    (st.withGroup f).stopReturned = st.stopReturned := rfl

@[simp] theorem TopState.topGroup_panicked (st : TopState) (f : Group → Group) :
    (st.withGroup f).panicked = st.panicked := rfl

theorem topInv_init (nodeID : String) : TopInv nodeID (TopState.init nodeID) := by
  constructor <;> simp [TopState.init, NewService]

theorem ElectionPC.election_returned {pc : ElectionPC} (h : pc.live = 0) (hn : pc ≠ .notLaunched) :
    pc = .returned := by
  cases pc <;> simp [ElectionPC.live] at h hn ⊢

theorem SelfWatchPC.selfWatch_returned {pc : SelfWatchPC} (h : pc.live = 0)
    (hn : pc ≠ .notLaunched) : pc = .returned := by
  cases pc <;> simp [SelfWatchPC.live] at h hn ⊢

theorem ListenerPC.listener_returned {pc : ListenerPC} (h : pc.live = 0)
    (hn : pc ≠ .notLaunched) : pc = .returned := by
  cases pc <;> simp [ListenerPC.live] at h hn ⊢

theorem SignalPC.signal_returned {pc : SignalPC} (h : pc.live = 0) (hn : pc ≠ .notLaunched) :
    pc = .returned := by
  cases pc <;> simp [SignalPC.live] at h hn ⊢

theorem TopInv.waiting_of_live {nodeID : String} {st : TopState} (h : TopInv nodeID st)
    (hl : 0 < st.election.live + st.selfWatch.live + st.listener.live + st.signal.live) :
    st.start = .waiting := by
  cases hst : st.start with
  | notCalled =>
    obtain ⟨i1, i2, i3, i4, _⟩ := h.idle (Or.inl hst)
    simp [i1, i2, i3, i4, ElectionPC.live, SelfWatchPC.live, ListenerPC.live,
      SignalPC.live] at hl
  | failed e =>
    obtain ⟨i1, i2, i3, i4, _⟩ := h.idle (Or.inr ⟨e, hst⟩)
    simp [i1, i2, i3, i4, ElectionPC.live, SelfWatchPC.live, ListenerPC.live,
      SignalPC.live] at hl
  | waiting => rfl
  | returned r =>
    obtain ⟨_, _, i1, i2, i3, i4⟩ := h.done r hst
    simp [i1, i2, i3, i4, ElectionPC.live, SelfWatchPC.live, ListenerPC.live,
      SignalPC.live] at hl

theorem topInv_step {nodeID : String} {st st1 : TopState} {a : TopAction}
    (h : TopInv nodeID st) (hs : st.step a = some st1) : TopInv nodeID st1 := by
  have hinv := h
  obtain ⟨h1, h2, h3, h4, h5, h6, h7, h8, h9⟩ := h
  unfold TopState.step at hs
  split at hs
  · simp at hs
  cases a <;> simp only at hs
  case start regErr candErr =>
    split at hs
    · rename_i hpc
      simp only [Option.some.injEq] at hs
      subst hs
      obtain ⟨i1, i2, i3, i4, i5, i6⟩ := h4 (Or.inl hpc)
      obtain ⟨u1, u2, u3⟩ := h5 (by simp [hpc])
      cases regErr with
      | some e =>
        refine ⟨h1, h2, ?_, ?_, ?_, ?_, ?_, ?_, ?_⟩ <;>
          simp [Start, i1, i2, i3, i4, i5, i6, u1, u2, u3]
      | none =>
        cases candErr with
        | some e =>
          refine ⟨h1, h2, ?_, ?_, ?_, ?_, ?_, ?_, ?_⟩ <;>
            simp [Start, i1, i2, i3, i4, i5, i6, u1, u2, u3]
        | none =>
          refine ⟨h1, h2, ?_, ?_, ?_, ?_, ?_, ?_, ?_⟩ <;>
            simp [Start, u1, u2, u3, Group.withContext, Group.go, ElectionPC.live,
              SelfWatchPC.live, ListenerPC.live, SignalPC.live]
    · simp at hs
  case ctxCancel e =>
    split at hs
    · simp only [Option.some.injEq] at hs
      subst hs
      exact hinv
    · simp only [Option.some.injEq] at hs
      subst hs
      refine ⟨h1, h2, ?_, h4, h5, h6, h7, h8, h9⟩
      intro hw
      obtain ⟨g, hg, hc⟩ := h3 hw
      exact ⟨g.parentCancel e, by simp [hg], by simpa using hc⟩
  case electionReturn r =>
    split at hs
    · rename_i hpc
      simp only [Option.some.injEq] at hs
      subst hs
      have hw := hinv.waiting_of_live (by simp [hpc, ElectionPC.live])
      obtain ⟨g, hg, hc⟩ := h3 hw
      obtain ⟨l1, l2, l3, l4⟩ := h6 hw
      have hu := h5 (by simp [hw])
      refine ⟨h1, h2, ?_, ?_, ?_, ?_, ?_, h8, h9⟩
      · intro _
        refine ⟨g.taskReturn r, by simp [hg], ?_⟩
        simp [hpc, ElectionPC.live] at hc ⊢
        omega
      · simp [hw]
      · intro _
        exact hu
      · intro _
        exact ⟨by simp, l2, l3, l4⟩
      · simp [hw]
    · simp at hs
  case watchReturn r =>
    split at hs
    · rename_i hpc
      simp only [Option.some.injEq] at hs
      subst hs
      have hw := hinv.waiting_of_live (by simp [hpc, SelfWatchPC.live])
      obtain ⟨g, hg, hc⟩ := h3 hw
      obtain ⟨l1, l2, l3, l4⟩ := h6 hw
      have hu := h5 (by simp [hw])
      refine ⟨h1, h2, ?_, ?_, ?_, ?_, ?_, h8, ?_⟩
      · intro _
        refine ⟨g.taskReturn r, by simp [hg], ?_⟩
        simp [hpc, SelfWatchPC.live] at hc ⊢
        omega
      · simp [hw]
      · intro _
        exact hu
      · intro _
        exact ⟨l1, by simp, l3, l4⟩
      · simp [hw]
      · simp
    · simp at hs
  case signalReturn =>
    split at hs
    · rename_i hpc
      simp only [Option.some.injEq] at hs
      subst hs
      have hw := hinv.waiting_of_live (by simp [hpc.1, SignalPC.live])
      obtain ⟨g, hg, hc⟩ := h3 hw
      obtain ⟨l1, l2, l3, l4⟩ := h6 hw
      have hu := h5 (by simp [hw])
      refine ⟨h1, h2, ?_, ?_, ?_, ?_, ?_, ?_, h9⟩
      · intro _
        refine ⟨g.taskReturn (some stopSignalError), by simp [hg], ?_⟩
        simp [hpc.1, SignalPC.live] at hc ⊢
        omega
      · simp [hw]
      · intro _
        exact hu
      · intro _
        exact ⟨l1, l2, l3, by simp⟩
      · simp [hw]
      · intro _
        simpa using hpc.2
    · simp at hs
  case watchRegister r =>
    split at hs
    · rename_i hpc
      have hw := hinv.waiting_of_live (by simp [hpc, SelfWatchPC.live])
      obtain ⟨g, hg, hc⟩ := h3 hw
      obtain ⟨l1, l2, l3, l4⟩ := h6 hw
      have hu := h5 (by simp [hw])
      have hlog : ∀ cfg ∈ st.watchLog ++ [selfWatchConfig st.svc],
          cfg = selfWatchConfig (NewService nodeID) := by
        intro cfg hm
        rcases List.mem_append.mp hm with hm | hm
        · exact h2 cfg hm
        · simp only [List.mem_singleton] at hm
          rw [hm]
          simp [selfWatchConfig, NewService, h1]
      cases r with
      | some e =>
        simp only [registryWatch, Option.some.injEq] at hs
        subst hs
        refine ⟨h1, hlog, ?_, ?_, ?_, ?_, ?_, h8, ?_⟩
        · intro _
          refine ⟨g.taskReturn (some e), by simp [hg], ?_⟩
          simp [hpc, SelfWatchPC.live] at hc ⊢
          omega
        · simp [hw]
        · intro _
          exact hu
        · intro _
          exact ⟨l1, by simp, l3, l4⟩
        · simp [hw]
        · simp
      | none =>
        simp only [registryWatch, Option.some.injEq] at hs
        subst hs
        refine ⟨h1, hlog, ?_, ?_, ?_, ?_, ?_, h8, ?_⟩
        · intro _
          refine ⟨g, hg, ?_⟩
          simp [hpc, SelfWatchPC.live] at hc ⊢
          omega
        · simp [hw]
        · intro _
          exact hu
        · intro _
          exact ⟨l1, by simp, l3, l4⟩
        · simp [hw]
        · simp
    · simp at hs
  case watchStart =>
    split at hs
    · rename_i hpc
      have hw := hinv.waiting_of_live (by simp [hpc, SelfWatchPC.live])
      obtain ⟨g, hg, hc⟩ := h3 hw
      obtain ⟨l1, l2, l3, l4⟩ := h6 hw
      have hu := h5 (by simp [hw])
      obtain ⟨w, hwt⟩ := Option.isSome_iff_exists.mp (h9 hpc)
      simp only [hwt, Option.some.injEq] at hs
      subst hs
      refine ⟨h1, h2, ?_, ?_, ?_, ?_, ?_, h8, ?_⟩
      · intro _
        refine ⟨g, hg, ?_⟩
        simp [hpc, SelfWatchPC.live] at hc ⊢
        omega
      · simp [hw]
      · intro _
        exact hu
      · intro _
        exact ⟨l1, by simp, l3, l4⟩
      · simp [hw]
      · simp
    · simp at hs
  case listenerSelect viaStop =>
    split at hs
    · rename_i hpc
      have hw := hinv.waiting_of_live (by simp [hpc, ListenerPC.live])
      obtain ⟨g, hg, hc⟩ := h3 hw
      obtain ⟨l1, l2, l3, l4⟩ := h6 hw
      have hu := h5 (by simp [hw])
      have key : ∀ err, TopInv nodeID { st with listener := .selected err } := by
        intro err
        refine ⟨h1, h2, ?_, ?_, ?_, ?_, ?_, h8, h9⟩
        · intro _
          refine ⟨g, hg, ?_⟩
          simp [hpc, ListenerPC.live] at hc ⊢
          omega
        · simp [hw]
        · intro _
          exact hu
        · intro _
          exact ⟨l1, l2, by simp, l4⟩
        · simp [hw]
      split at hs
      · split at hs
        · simp only [Option.some.injEq] at hs
          subst hs
          exact key _
        · simp at hs
      · split at hs
        · simp only [Option.some.injEq] at hs
          subst hs
          exact key _
        · simp at hs
    · simp at hs
  case listenerStopWatch =>
    split at hs
    · rename_i err hpc
      have hw := hinv.waiting_of_live (by simp [hpc, ListenerPC.live])
      obtain ⟨g, hg, hc⟩ := h3 hw
      obtain ⟨l1, l2, l3, l4⟩ := h6 hw
      have hu := h5 (by simp [hw])
      simp only [Option.some.injEq] at hs
      subst hs
      refine ⟨h1, h2, ?_, ?_, ?_, ?_, ?_, h8, ?_⟩
      · intro _
        refine ⟨g, hg, ?_⟩
        simp [hpc, ListenerPC.live] at hc ⊢
        omega
      · simp [hw]
      · intro _
        exact hu
      · intro _
        exact ⟨l1, l2, by simp, l4⟩
      · simp [hw]
      · intro h
        simpa using h9 h
    · simp at hs
  case listenerReturn =>
    split at hs
    · rename_i err hpc
      have hw := hinv.waiting_of_live (by simp [hpc, ListenerPC.live])
      obtain ⟨g, hg, hc⟩ := h3 hw
      obtain ⟨l1, l2, l3, l4⟩ := h6 hw
      have hu := h5 (by simp [hw])
      simp only [Option.some.injEq] at hs
      subst hs
      refine ⟨h1, h2, ?_, ?_, ?_, ?_, ?_, h8, h9⟩
      · intro _
        refine ⟨g.taskReturn (some err), by simp [hg], ?_⟩
        simp [hpc, ListenerPC.live] at hc ⊢
        omega
      · simp [hw]
      · intro _
        exact hu
      · intro _
        exact ⟨l1, l2, by simp, l4⟩
      · simp [hw]
    · simp at hs
  case stopCall =>
    simp only [Option.some.injEq] at hs
    subst hs
    unfold Stop
    split
    · exact ⟨h1, h2, h3, h4, h5, h6, h7, h8, h9⟩
    · refine ⟨h1, h2, h3, h4, h5, h6, h7, ?_, h9⟩
      intro _
      rfl
  case stopReturn =>
    unfold StopFinish at hs
    split at hs
    · rename_i hpc
      simp only [Option.some.injEq] at hs
      subst hs
      refine ⟨h1, h2, h3, h4, ?_, h6, h7, h8, h9⟩
      intro hn
      have := (h5 hn).1
      simp [this] at hpc
    · simp at hs
  case startReturn =>
    split at hs
    · rename_i hw
      obtain ⟨g, hg, hc⟩ := h3 hw
      obtain ⟨l1, l2, l3, l4⟩ := h6 hw
      obtain ⟨u1, u2, u3⟩ := h5 (by simp [hw])
      simp only [StartFinish, hg, Group.Wait, u1] at hs
      by_cases hz : g.wg = 0
      · simp only [hz, if_true, Bool.false_eq_true, if_false, Option.some.injEq] at hs
        subst hs
        have e1 : st.election = .returned := ElectionPC.election_returned (by omega) l1
        have e2 : st.selfWatch = .returned := SelfWatchPC.selfWatch_returned (by omega) l2
        have e3 : st.listener = .returned := ListenerPC.listener_returned (by omega) l3
        have e4 : st.signal = .returned := SignalPC.signal_returned (by omega) l4
        refine ⟨h1, h2, ?_, ?_, ?_, ?_, ?_, h8, h9⟩
        · simp
        · simp
        · simp
        · simp
        · intro r _
          exact ⟨rfl, by simp [u2], e1, e2, e3, e4⟩
      · simp [hz] at hs
    · simp at hs

theorem TopReachable.topInv {nodeID : String} {st : TopState} (h : TopReachable nodeID st) :
    TopInv nodeID st := by
  induction h with
  | init => exact topInv_init nodeID
  | step a _ hs ih => exact topInv_step ih hs

theorem TopReachable.runTop {nodeID : String} {st st1 : TopState}
    (h : TopReachable nodeID st) (acts : List TopAction) (hr : st.run acts = some st1) :
    TopReachable nodeID st1 := by
  induction acts generalizing st with
  | nil =>
    simp only [TopState.run, Option.some.injEq] at hr
    exact hr ▸ h
  | cons a rest ih =>
    simp only [TopState.run] at hr
    cases hs : st.step a with
    | none => simp [hs] at hr
    | some st2 =>
      simp only [hs] at hr
      exact ih (TopReachable.step a h hs) hr

theorem TopState.step_not_panicked {st st1 : TopState} {a : TopAction}
    (hs : st.step a = some st1) : st.panicked = false := by
  cases h : st.panicked with
  | false => rfl
  | true => simp [TopState.step, h] at hs

theorem TopState.step_stopChClosed {st st1 : TopState} {a : TopAction}
    (hs : st.step a = some st1) (ha : a ≠ .stopCall) :
    st1.svc.stopChClosed = st.svc.stopChClosed := by
  unfold TopState.step at hs
  split at hs
  · simp at hs
  cases a <;> simp only at hs
  case stopCall => exact absurd rfl ha
  case start regErr candErr =>
    split at hs
    · simp only [Option.some.injEq] at hs
      subst hs
      cases regErr <;> cases candErr <;> rfl
    · simp at hs
  case ctxCancel e =>
    split at hs <;>
    · simp only [Option.some.injEq] at hs
      subst hs
      rfl
  case watchRegister r =>
    split at hs
    · cases r <;>
      · simp only [registryWatch, Option.some.injEq] at hs
        subst hs
        rfl
    · simp at hs
  case watchStart =>
    split at hs
    · split at hs <;>
      · simp only [Option.some.injEq] at hs
        subst hs
        rfl
    · simp at hs
  case listenerSelect viaStop =>
    split at hs
    · split at hs
      · split at hs
        · simp only [Option.some.injEq] at hs
          subst hs
          rfl
        · simp at hs
      · split at hs
        · simp only [Option.some.injEq] at hs
          subst hs
          rfl
        · simp at hs
    · simp at hs
  case startReturn =>
    split at hs
    · unfold StartFinish at hs
      split at hs
      · simp at hs
      · split at hs
        · simp at hs
        · split at hs <;>
          · simp only [Option.some.injEq] at hs
            subst hs
            rfl
    · simp at hs
  case stopReturn =>
    unfold StopFinish at hs
    split at hs
    · simp only [Option.some.injEq] at hs
      subst hs
      rfl
    · simp at hs
  all_goals
    split at hs
    · simp only [Option.some.injEq] at hs
      subst hs
      rfl
    · simp at hs

theorem TopState.run_stopChClosed {st st1 : TopState} (acts : List TopAction)
    (hr : st.run acts = some st1) (ha : TopAction.stopCall ∉ acts) :
    st1.svc.stopChClosed = st.svc.stopChClosed := by
  induction acts generalizing st with
  | nil =>
    simp only [TopState.run, Option.some.injEq] at hr
    rw [hr]
  | cons a rest ih =>
    simp only [TopState.run] at hr
    cases hs : st.step a with
    | none => simp [hs] at hr
    | some st2 =>
      simp only [hs] at hr
      simp only [List.mem_cons, not_or] at ha
      rw [ih hr ha.2, TopState.step_stopChClosed hs (Ne.symm ha.1)]

/-! ## Claims about `Start` and `Stop` -/

/-- C1 (what the code does instead): along every schedule in which `Stop` is never
called, `c.stopCh` stays open, `Start` has not returned through `Wait` and its `Wait`
cannot return: the fourth goroutine of `Start` blocks on `c.stopCh` alone, so the group's
counter stays positive whatever error another goroutine has returned. -/
theorem start_blocks_until_stop (nodeID : String) (acts : List TopAction) (st : TopState)
    (hrun : (TopState.init nodeID).run acts = some st)
    (hstop : TopAction.stopCall ∉ acts) :
    st.svc.stopChClosed = false ∧ (∀ r, st.start ≠ .returned r) ∧
      st.step .startReturn = none := by
  have hi := (TopReachable.runTop .init acts hrun).topInv
  have hc : st.svc.stopChClosed = false := by
    rw [TopState.run_stopChClosed acts hrun hstop]
    rfl
  have hsig : st.signal ≠ .returned := fun h => by simp [hi.signalled h] at hc
  refine ⟨hc, ?_, ?_⟩
  · intro r hr
    exact hsig (hi.done r hr).2.2.2.2.2
  · unfold TopState.step
    split
    · rfl
    · simp only
      split
      · rename_i hw
        obtain ⟨g, hg, hwg⟩ := hi.counter hw
        have hl : st.signal.live = 1 := by
          have := (hi.launched hw).2.2.2
          cases h : st.signal <;> simp_all [SignalPC.live]
        have hz : g.wg ≠ 0 := by omega
        simp [StartFinish, hg, Group.Wait, hz]
      · rfl

/-- C1 at the execution of node `node-1` whose election fails with `electionFailure`
while `Stop` is never called: every other goroutine has returned, the group holds the
error, and `Start` is still blocked in `Wait`. -/
theorem start_blocks_until_stop_witness :
    (TopState.init "node-1").run electionFailureSchedule = some electionFailed ∧
    TopAction.stopCall ∉ electionFailureSchedule ∧
    electionFailed.svc.workgrp = some ⟨1, some electionFailure, some contextCanceled⟩ ∧
    (electionFailed.svc.stopChClosed = false ∧ (∀ r, electionFailed.start ≠ .returned r) ∧
      electionFailed.step .startReturn = none) :=
  ⟨rfl, by decide, rfl,
    start_blocks_until_stop "node-1" electionFailureSchedule electionFailed rfl (by decide)⟩

theorem leakInv_step {st st1 : TopState} {a : TopAction} (h : LeakInv st)
    (hs : st.step a = some st1) : LeakInv st1 := by
  obtain ⟨h1, h2, h3, h4⟩ := h
  unfold TopState.step at hs
  split at hs
  · simp at hs
  cases a <;> simp only at hs
  case start regErr candErr => simp [h3] at hs
  case ctxCancel e =>
    split at hs <;>
    · simp only [Option.some.injEq] at hs
      subst hs
      exact ⟨h1, h2, h3, h4⟩
  case electionReturn r =>
    split at hs
    · simp only [Option.some.injEq] at hs
      subst hs
      exact ⟨h1, h2, h3, h4⟩
    · simp at hs
  case watchRegister r =>
    rcases h2 with h2 | h2 <;> simp [h2] at hs
  case watchStart =>
    rcases h2 with h2 | h2 <;> simp [h2] at hs
  case watchReturn r =>
    split at hs
    · simp only [Option.some.injEq] at hs
      subst hs
      exact ⟨h1, Or.inr rfl, h3, h4⟩
    · simp at hs
  case listenerSelect viaStop => simp [h1] at hs
  case listenerStopWatch => simp [h1] at hs
  case listenerReturn => simp [h1] at hs
  case signalReturn =>
    split at hs
    · simp only [Option.some.injEq] at hs
      subst hs
      exact ⟨h1, h2, h3, h4⟩
    · simp at hs
  case startReturn =>
    split at hs
    · unfold StartFinish at hs
      split at hs
      · simp at hs
      · split at hs
        · simp at hs
        · split at hs <;>
          · simp only [Option.some.injEq] at hs
            subst hs
            exact ⟨h1, h2, by simp_all, h4⟩
    · simp at hs
  case stopCall =>
    simp only [Option.some.injEq] at hs
    subst hs
    unfold Stop
    split <;> exact ⟨h1, h2, h3, h4⟩
  case stopReturn =>
    unfold StopFinish at hs
    split at hs
    · simp only [Option.some.injEq] at hs
      subst hs
      exact ⟨h1, h2, h3, h4⟩
    · simp at hs

theorem leakInv_run {st st1 : TopState} (acts : List TopAction) (h : LeakInv st)
    (hr : st.run acts = some st1) : LeakInv st1 := by
  induction acts generalizing st with
  | nil =>
    simp only [TopState.run, Option.some.injEq] at hr
    exact hr ▸ h
  | cons a rest ih =>
    simp only [TopState.run] at hr
    cases hs : st.step a with
    | none => simp [hs] at hr
    | some st2 =>
      simp only [hs] at hr
      exact ih (leakInv_step h hs) hr

theorem leakInv_leakedWatch : LeakInv leakedWatch :=
  ⟨rfl, Or.inl rfl, by simp [leakedWatch], ⟨_, rfl, rfl, rfl⟩⟩

/-- C4 (what the code does instead): the schedule `leakSchedule` of node `node-1` contains
a call of `Stop` and leads to `leakedWatch`, where the stop-listener has returned (it
found `watcher` nil) and the self-assignment watcher is inside `StartWatch`; in every
continuation from there the watcher has had `StartWatch` invoked once and `StopWatch`
never. -/
theorem stop_leaves_watch_outstanding (acts : List TopAction) (st : TopState)
    (hrun : leakedWatch.run acts = some st) :
    (TopState.init "node-1").run leakSchedule = some leakedWatch ∧
    TopAction.stopCall ∈ leakSchedule ∧
    ∃ w, st.watcher = some w ∧ w.startWatchCalls = 1 ∧ w.stopWatchCalls = 0 :=
  ⟨rfl, by decide, (leakInv_run acts leakInv_leakedWatch hrun).watcher⟩

/-- C4 at the continuation `leakContinuation`: `Start` has returned and the pending
`Stop` has returned, and `StopWatch` was never invoked on the started watcher. -/
theorem stop_leaves_watch_outstanding_witness :
    leakedWatch.run leakContinuation = some leakedFinal ∧
    leakedFinal.start = .returned (some stopSignalError) ∧ leakedFinal.stopReturned = 1 ∧
    ∃ w, leakedFinal.watcher = some w ∧ w.startWatchCalls = 1 ∧ w.stopWatchCalls = 0 :=
  ⟨rfl, rfl, rfl, (stop_leaves_watch_outstanding leakContinuation leakedFinal rfl).2.2⟩

theorem TopState.run_stopCall_closed {st st1 : TopState} (acts : List TopAction)
    (hr : st.run acts = some st1) (ha : TopAction.stopCall ∈ acts) :
    st1.svc.stopChClosed = true := by
  induction acts generalizing st with
  | nil => simp at ha
  | cons a rest ih =>
    simp only [TopState.run] at hr
    cases hs : st.step a with
    | none => simp [hs] at hr
    | some st2 =>
      simp only [hs] at hr
      by_cases hmem : TopAction.stopCall ∈ rest
      · exact ih hr hmem
      · have ha1 : a = .stopCall := by
          rcases List.mem_cons.mp ha with h | h
          · exact h.symm
          · exact absurd h hmem
        subst ha1
        rw [TopState.run_stopChClosed rest hr hmem]
        have hp0 := TopState.step_not_panicked hs
        simp only [TopState.step, hp0, Bool.false_eq_true, if_false, Option.some.injEq] at hs
        subst hs
        unfold Stop
        split
        · assumption
        · rfl

/-- C2 as stated fails: after the clean shutdown `shutdownSchedule` of node `node-1`, in
which the first `Stop` has returned, a second call of `Stop` panics. -/
theorem stop_twice_panics :
    (TopState.init "node-1").run shutdownSchedule = some stoppedService ∧
    stoppedService.stopReturned = 1 ∧ stoppedService.panicked = false ∧
    ∃ st2, stoppedService.step .stopCall = some st2 ∧ st2.panicked = true :=
  ⟨rfl, rfl, rfl, _, rfl, rfl⟩

/-- C2 (amended): in a running process, a call of `Stop` on a service on which `Stop` has
not been called yet closes `c.stopCh` without a panic and waits on `c.doneCh`; a call on
a service on which `Stop` has been called before panics at `close(c.stopCh)`: it does not
return, and nothing runs afterwards. -/
theorem stop_only_once (nodeID : String) (acts : List TopAction) (st : TopState)
    (hrun : (TopState.init nodeID).run acts = some st) (hp : st.panicked = false) :
    (TopAction.stopCall ∉ acts →
      ∃ st1, st.step .stopCall = some st1 ∧ st1.panicked = false ∧
        st1.svc.stopChClosed = true ∧ st1.stopWaiting = st.stopWaiting + 1) ∧
    (TopAction.stopCall ∈ acts →
      ∃ st1, st.step .stopCall = some st1 ∧ st1.panicked = true ∧
        st1.stopReturned = st.stopReturned ∧ ∀ a, st1.step a = none) := by
  have hstep : st.step .stopCall = some (Stop st) := by
    simp [TopState.step, hp]
  constructor
  · intro hn
    have hc : st.svc.stopChClosed = false := by
      rw [TopState.run_stopChClosed acts hrun hn]
      rfl
    exact ⟨_, hstep, by simp [Stop, hc, hp], by simp [Stop, hc], by simp [Stop, hc]⟩
  · intro hm
    have hc := TopState.run_stopCall_closed acts hrun hm
    refine ⟨_, hstep, by simp [Stop, hc], by simp [Stop, hc], ?_⟩
    intro a
    simp [TopState.step, Stop, hc]

/-- C2 (amended) at the stopped service of node `node-1`: the schedule contains a `Stop`,
the process has not panicked, and one more `Stop` panics. -/
theorem stop_only_once_witness :
    (TopState.init "node-1").run shutdownSchedule = some stoppedService ∧
    stoppedService.panicked = false ∧ TopAction.stopCall ∈ shutdownSchedule ∧
    ∃ st1, stoppedService.step .stopCall = some st1 ∧ st1.panicked = true ∧
      st1.stopReturned = stoppedService.stopReturned ∧ ∀ a, st1.step a = none :=
  ⟨rfl, rfl, by decide,
    (stop_only_once "node-1" shutdownSchedule stoppedService rfl rfl).2 (by decide)⟩

/-- C3 as stated fails: on node `node-1` the watch the second goroutine of `Start`
registers has the path of the claim, and its type is `keyprefix`, not `exact`. -/
theorem self_watch_not_exact :
    ∃ st, (TopState.init "node-1").run [.start none none, .watchRegister none] = some st ∧
      st.watchLog = [⟨"keyprefix", "/registry/nodes/node-1/subscriptions"⟩] ∧
      ∃ cfg ∈ st.watchLog, cfg.WatchType ≠ "exact" :=
  ⟨_, rfl, rfl, _, List.mem_singleton.mpr rfl, by decide⟩

/-- C3 (amended): in every reachable state, every configuration that `Start` has handed
to `registry.Watch` has type `keyprefix` and path
`/registry/nodes/<nodeID>/subscriptions`; the same holds of the watcher the variable
`watcher` holds once the registration has succeeded, and a registration that has
succeeded has been logged. -/
theorem self_watch_keyprefix_path (nodeID : String) (st : TopState)
    (hr : TopReachable nodeID st) :
    (∀ cfg ∈ st.watchLog, cfg.WatchType = "keyprefix" ∧
      cfg.WatchPath = "/registry/nodes/" ++ nodeID ++ "/subscriptions") ∧
    (∀ st1, st.step (.watchRegister none) = some st1 →
      ∃ w, st1.watcher = some w ∧ w.config.WatchType = "keyprefix" ∧
        w.config.WatchPath = "/registry/nodes/" ++ nodeID ++ "/subscriptions" ∧
        w.config ∈ st1.watchLog) := by
  have hi := hr.topInv
  constructor
  · intro cfg hm
    rw [hi.log cfg hm]
    exact ⟨rfl, rfl⟩
  · intro st1 hs
    have hp := TopState.step_not_panicked hs
    simp only [TopState.step, hp, Bool.false_eq_true, if_false] at hs
    split at hs
    · simp only [registryWatch, Option.some.injEq] at hs
      subst hs
      refine ⟨_, rfl, rfl, ?_, by simp⟩
      simp [selfWatchConfig, hi.ident]
    · simp at hs

/-- C3 (amended) at node `node-1`, in the state where the watch has been registered. -/
theorem self_watch_keyprefix_path_witness :
    TopReachable "node-1" leakedWatch ∧
    leakedWatch.watchLog ≠ [] ∧
    ∀ cfg ∈ leakedWatch.watchLog, cfg.WatchType = "keyprefix" ∧
      cfg.WatchPath = "/registry/nodes/" ++ "node-1" ++ "/subscriptions" :=
  have hr : TopReachable "node-1" leakedWatch := TopReachable.runTop .init leakSchedule rfl
  ⟨hr, by decide, (self_watch_keyprefix_path "node-1" leakedWatch hr).1⟩

/-! ## The service across calls of `Start` -/

theorem HostInv.host_waiting_of_live {st : TopState} (h : HostInv st)
    (hl : 0 < st.election.live + st.selfWatch.live + st.listener.live + st.signal.live) :
    st.start = .waiting := by
  cases hst : st.start with
  | notCalled =>
    obtain ⟨i1, i2, i3, i4, _⟩ := h.idle (Or.inl hst)
    simp [i1, i2, i3, i4, ElectionPC.live, SelfWatchPC.live, ListenerPC.live,
      SignalPC.live] at hl
  | failed e =>
    obtain ⟨i1, i2, i3, i4, _⟩ := h.idle (Or.inr ⟨e, hst⟩)
    simp [i1, i2, i3, i4, ElectionPC.live, SelfWatchPC.live, ListenerPC.live,
      SignalPC.live] at hl
  | waiting => rfl
  | returned r =>
    obtain ⟨_, i1, i2, i3, i4⟩ := h.done r hst
    simp [i1, i2, i3, i4, ElectionPC.live, SelfWatchPC.live, ListenerPC.live,
      SignalPC.live] at hl

theorem hostInv_init (nodeID : String) : HostInv (TopState.init nodeID) := by
  constructor <;> simp [TopState.init, NewService]

theorem hostInv_step {st st1 : TopState} {a : TopAction}
    (h : HostInv st) (hs : st.hostStep a = some st1) : HostInv st1 := by
  have hinv := h
  obtain ⟨h3, h4, h6, h7, hcl, hstp, h9⟩ := h
  cases a
  case start regErr candErr =>
    simp only [TopState.hostStep] at hs
    split at hs
    · simp at hs
    · split at hs
      · simp at hs
      · simp only [Option.some.injEq] at hs
        subst hs
        cases regErr with
        | some e =>
          refine ⟨?_, ?_, ?_, ?_, hcl, hstp, ?_⟩ <;> simp [Start, TopState.fresh]
        | none =>
          cases candErr with
          | some e =>
            refine ⟨?_, ?_, ?_, ?_, hcl, hstp, ?_⟩ <;> simp [Start, TopState.fresh]
          | none =>
            refine ⟨?_, ?_, ?_, ?_, hcl, hstp, ?_⟩ <;>
              simp [Start, TopState.fresh, Group.withContext, Group.go, ElectionPC.live,
                SelfWatchPC.live, ListenerPC.live, SignalPC.live]
  case ctxCancel e =>
    simp only [TopState.hostStep] at hs
    unfold TopState.step at hs
    split at hs
    · simp at hs
    simp only at hs
    split at hs
    · simp only [Option.some.injEq] at hs
      subst hs
      exact hinv
    · simp only [Option.some.injEq] at hs
      subst hs
      refine ⟨?_, h4, h6, h7, hcl, hstp, h9⟩
      intro hw
      obtain ⟨g, hg, hc⟩ := h3 hw
      exact ⟨g.parentCancel e, by simp [hg], by simpa using hc⟩
  case electionReturn r =>
    simp only [TopState.hostStep] at hs
    unfold TopState.step at hs
    split at hs
    · simp at hs
    simp only at hs
    split at hs
    · rename_i hpc
      simp only [Option.some.injEq] at hs
      subst hs
      have hw := hinv.host_waiting_of_live (by simp [hpc, ElectionPC.live])
      obtain ⟨g, hg, hc⟩ := h3 hw
      obtain ⟨l1, l2, l3, l4⟩ := h6 hw
      refine ⟨?_, ?_, ?_, ?_, hcl, hstp, h9⟩
      · intro _
        refine ⟨g.taskReturn r, by simp [hg], ?_⟩
        simp [hpc, ElectionPC.live] at hc ⊢
        omega
      · simp [hw]
      · intro _
        exact ⟨by simp, l2, l3, l4⟩
      · simp [hw]
    · simp at hs
  case watchReturn r =>
    simp only [TopState.hostStep] at hs
    unfold TopState.step at hs
    split at hs
    · simp at hs
    simp only at hs
    split at hs
    · rename_i hpc
      simp only [Option.some.injEq] at hs
      subst hs
      have hw := hinv.host_waiting_of_live (by simp [hpc, SelfWatchPC.live])
      obtain ⟨g, hg, hc⟩ := h3 hw
      obtain ⟨l1, l2, l3, l4⟩ := h6 hw
      refine ⟨?_, ?_, ?_, ?_, hcl, hstp, by simp⟩
      · intro _
        refine ⟨g.taskReturn r, by simp [hg], ?_⟩
        simp [hpc, SelfWatchPC.live] at hc ⊢
        omega
      · simp [hw]
      · intro _
        exact ⟨l1, by simp, l3, l4⟩
      · simp [hw]
    · simp at hs
  case signalReturn =>
    simp only [TopState.hostStep] at hs
    unfold TopState.step at hs
    split at hs
    · simp at hs
    simp only at hs
    split at hs
    · rename_i hpc
      simp only [Option.some.injEq] at hs
      subst hs
      have hw := hinv.host_waiting_of_live (by simp [hpc.1, SignalPC.live])
      obtain ⟨g, hg, hc⟩ := h3 hw
      obtain ⟨l1, l2, l3, l4⟩ := h6 hw
      refine ⟨?_, ?_, ?_, ?_, hcl, hstp, h9⟩
      · intro _
        refine ⟨g.taskReturn (some stopSignalError), by simp [hg], ?_⟩
        simp [hpc.1, SignalPC.live] at hc ⊢
        omega
      · simp [hw]
      · intro _
        exact ⟨l1, l2, l3, by simp⟩
      · simp [hw]
    · simp at hs
  case watchRegister r =>
    simp only [TopState.hostStep] at hs
    unfold TopState.step at hs
    split at hs
    · simp at hs
    simp only at hs
    split at hs
    · rename_i hpc
      have hw := hinv.host_waiting_of_live (by simp [hpc, SelfWatchPC.live])
      obtain ⟨g, hg, hc⟩ := h3 hw
      obtain ⟨l1, l2, l3, l4⟩ := h6 hw
      cases r with
      | some e =>
        simp only [registryWatch, Option.some.injEq] at hs
        subst hs
        refine ⟨?_, ?_, ?_, ?_, hcl, hstp, by simp⟩
        · intro _
          refine ⟨g.taskReturn (some e), by simp [hg], ?_⟩
          simp [hpc, SelfWatchPC.live] at hc ⊢
          omega
        · simp [hw]
        · intro _
          exact ⟨l1, by simp, l3, l4⟩
        · simp [hw]
      | none =>
        simp only [registryWatch, Option.some.injEq] at hs
        subst hs
        refine ⟨?_, ?_, ?_, ?_, hcl, hstp, by simp⟩
        · intro _
          refine ⟨g, hg, ?_⟩
          simp [hpc, SelfWatchPC.live] at hc ⊢
          omega
        · simp [hw]
        · intro _
          exact ⟨l1, by simp, l3, l4⟩
        · simp [hw]
    · simp at hs
  case watchStart =>
    simp only [TopState.hostStep] at hs
    unfold TopState.step at hs
    split at hs
    · simp at hs
    simp only at hs
    split at hs
    · rename_i hpc
      have hw := hinv.host_waiting_of_live (by simp [hpc, SelfWatchPC.live])
      obtain ⟨g, hg, hc⟩ := h3 hw
      obtain ⟨l1, l2, l3, l4⟩ := h6 hw
      obtain ⟨w, hwt⟩ := Option.isSome_iff_exists.mp (h9 hpc)
      simp only [hwt, Option.some.injEq] at hs
      subst hs
      refine ⟨?_, ?_, ?_, ?_, hcl, hstp, by simp⟩
      · intro _
        refine ⟨g, hg, ?_⟩
        simp [hpc, SelfWatchPC.live] at hc ⊢
        omega
      · simp [hw]
      · intro _
        exact ⟨l1, by simp, l3, l4⟩
      · simp [hw]
    · simp at hs
  case listenerSelect viaStop =>
    simp only [TopState.hostStep] at hs
    unfold TopState.step at hs
    split at hs
    · simp at hs
    simp only at hs
    split at hs
    · rename_i hpc
      have hw := hinv.host_waiting_of_live (by simp [hpc, ListenerPC.live])
      obtain ⟨g, hg, hc⟩ := h3 hw
      obtain ⟨l1, l2, l3, l4⟩ := h6 hw
      have key : ∀ err, HostInv { st with listener := .selected err } := by
        intro err
        refine ⟨?_, ?_, ?_, ?_, hcl, hstp, h9⟩
        · intro _
          refine ⟨g, hg, ?_⟩
          simp [hpc, ListenerPC.live] at hc ⊢
          omega
        · simp [hw]
        · intro _
          exact ⟨l1, l2, by simp, l4⟩
        · simp [hw]
      split at hs
      · split at hs
        · simp only [Option.some.injEq] at hs
          subst hs
          exact key _
        · simp at hs
      · split at hs
        · simp only [Option.some.injEq] at hs
          subst hs
          exact key _
        · simp at hs
    · simp at hs
  case listenerStopWatch =>
    simp only [TopState.hostStep] at hs
    unfold TopState.step at hs
    split at hs
    · simp at hs
    simp only at hs
    split at hs
    · rename_i err hpc
      have hw := hinv.host_waiting_of_live (by simp [hpc, ListenerPC.live])
      obtain ⟨g, hg, hc⟩ := h3 hw
      obtain ⟨l1, l2, l3, l4⟩ := h6 hw
      simp only [Option.some.injEq] at hs
      subst hs
      refine ⟨?_, ?_, ?_, ?_, hcl, hstp, ?_⟩
      · intro _
        refine ⟨g, hg, ?_⟩
        simp [hpc, ListenerPC.live] at hc ⊢
        omega
      · simp [hw]
      · intro _
        exact ⟨l1, l2, by simp, l4⟩
      · simp [hw]
      · intro h
        simpa using h9 h
    · simp at hs
  case listenerReturn =>
    simp only [TopState.hostStep] at hs
    unfold TopState.step at hs
    split at hs
    · simp at hs
    simp only at hs
    split at hs
    · rename_i err hpc
      have hw := hinv.host_waiting_of_live (by simp [hpc, ListenerPC.live])
      obtain ⟨g, hg, hc⟩ := h3 hw
      obtain ⟨l1, l2, l3, l4⟩ := h6 hw
      simp only [Option.some.injEq] at hs
      subst hs
      refine ⟨?_, ?_, ?_, ?_, hcl, hstp, h9⟩
      · intro _
        refine ⟨g.taskReturn (some err), by simp [hg], ?_⟩
        simp [hpc, ListenerPC.live] at hc ⊢
        omega
      · simp [hw]
      · intro _
        exact ⟨l1, l2, by simp, l4⟩
      · simp [hw]
    · simp at hs
  case stopCall =>
    simp only [TopState.hostStep] at hs
    unfold TopState.step at hs
    split at hs
    · simp at hs
    simp only at hs
    simp only [Option.some.injEq] at hs
    subst hs
    unfold Stop
    split <;> exact ⟨h3, h4, h6, h7, hcl, hstp, h9⟩
  case stopReturn =>
    simp only [TopState.hostStep] at hs
    unfold TopState.step at hs
    split at hs
    · simp at hs
    simp only at hs
    unfold StopFinish at hs
    split at hs
    · rename_i hpc
      simp only [Option.some.injEq] at hs
      subst hs
      exact ⟨h3, h4, h6, h7, hcl, fun _ => hpc.2, h9⟩
    · simp at hs
  case startReturn =>
    simp only [TopState.hostStep] at hs
    unfold TopState.step at hs
    split at hs
    · simp at hs
    simp only at hs
    split at hs
    · rename_i hw
      obtain ⟨g, hg, hc⟩ := h3 hw
      obtain ⟨l1, l2, l3, l4⟩ := h6 hw
      simp only [StartFinish, hg, Group.Wait] at hs
      by_cases hz : g.wg = 0
      · simp only [hz, if_true] at hs
        split at hs
        · simp only [Option.some.injEq] at hs
          subst hs
          exact ⟨h3, h4, h6, h7, hcl, hstp, h9⟩
        · rename_i hopen
          simp only [Option.some.injEq] at hs
          subst hs
          have e1 : st.election = .returned := ElectionPC.election_returned (by omega) l1
          have e2 : st.selfWatch = .returned := SelfWatchPC.selfWatch_returned (by omega) l2
          have e3 : st.listener = .returned := ListenerPC.listener_returned (by omega) l3
          have e4 : st.signal = .returned := SignalPC.signal_returned (by omega) l4
          have hd0 : st.doneCloses = 0 := by
            have := hcl.1.not.mp hopen
            have := hcl.2
            omega
          refine ⟨by simp, by simp, by simp, ?_, ?_, fun _ => rfl, h9⟩
          · intro r _
            exact ⟨rfl, e1, e2, e3, e4⟩
          · simp [hd0]
      · simp [hz] at hs
    · simp at hs

theorem HostReachable.hostInv {nodeID : String} {st : TopState}
    (h : HostReachable nodeID st) : HostInv st := by
  induction h with
  | init => exact hostInv_init nodeID
  | step a _ hs ih => exact hostInv_step ih hs

theorem HostReachable.hostRun {nodeID : String} {st st1 : TopState}
    (h : HostReachable nodeID st) (acts : List TopAction) (hr : st.hostRun acts = some st1) :
    HostReachable nodeID st1 := by
  induction acts generalizing st with
  | nil =>
    simp only [TopState.hostRun, Option.some.injEq] at hr
    exact hr ▸ h
  | cons a rest ih =>
    simp only [TopState.hostRun] at hr
    cases hs : st.hostStep a with
    | none => simp [hs] at hr
    | some st2 =>
      simp only [hs] at hr
      exact ih (HostReachable.step a h hs) hr

theorem TopState.hostStep_not_panicked {st st1 : TopState} {a : TopAction}
    (hs : st.hostStep a = some st1) : st.panicked = false := by
  cases h : st.panicked with
  | false => rfl
  | true => cases a <;> simp [TopState.hostStep, TopState.step, h] at hs

theorem StartFinish_cases {st st1 : TopState} (hs : StartFinish st = some st1) :
    (st.svc.doneChClosed = true ∧ st1.panicked = true ∧
      st1.svc.doneChClosed = st.svc.doneChClosed ∧ st1.doneCloses = st.doneCloses) ∨
    (st.svc.doneChClosed = false ∧ st1.svc.doneChClosed = true ∧
      st1.doneCloses = st.doneCloses + 1 ∧ ∃ r, st1.start = .returned r) := by
  unfold StartFinish at hs
  split at hs
  · simp at hs
  · split at hs
    · simp at hs
    · split at hs
      · rename_i hcl
        simp only [Option.some.injEq] at hs
        subst hs
        exact Or.inl ⟨hcl, rfl, rfl, rfl⟩
      · rename_i hcl
        simp only [Option.some.injEq] at hs
        subst hs
        exact Or.inr ⟨by simpa using hcl, rfl, rfl, _, rfl⟩

theorem TopState.step_doneCh {st st1 : TopState} {a : TopAction}
    (hs : st.step a = some st1) (ha : a ≠ .startReturn) :
    st1.svc.doneChClosed = st.svc.doneChClosed ∧ st1.doneCloses = st.doneCloses := by
  unfold TopState.step at hs
  split at hs
  · simp at hs
  cases a <;> simp only at hs
  case startReturn => exact absurd rfl ha
  case stopCall =>
    simp only [Option.some.injEq] at hs
    subst hs
    unfold Stop
    split <;> exact ⟨rfl, rfl⟩
  case start regErr candErr =>
    split at hs
    · simp only [Option.some.injEq] at hs
      subst hs
      cases regErr <;> cases candErr <;> exact ⟨rfl, rfl⟩
    · simp at hs
  case ctxCancel e =>
    split at hs <;>
    · simp only [Option.some.injEq] at hs
      subst hs
      exact ⟨rfl, rfl⟩
  case watchRegister r =>
    split at hs
    · cases r <;>
      · simp only [registryWatch, Option.some.injEq] at hs
        subst hs
        exact ⟨rfl, rfl⟩
    · simp at hs
  case watchStart =>
    split at hs
    · split at hs <;>
      · simp only [Option.some.injEq] at hs
        subst hs
        exact ⟨rfl, rfl⟩
    · simp at hs
  case listenerSelect viaStop =>
    split at hs
    · split at hs
      · split at hs
        · simp only [Option.some.injEq] at hs
          subst hs
          exact ⟨rfl, rfl⟩
        · simp at hs
      · split at hs
        · simp only [Option.some.injEq] at hs
          subst hs
          exact ⟨rfl, rfl⟩
        · simp at hs
    · simp at hs
  case stopReturn =>
    unfold StopFinish at hs
    split at hs
    · simp only [Option.some.injEq] at hs
      subst hs
      exact ⟨rfl, rfl⟩
    · simp at hs
  all_goals
    split at hs
    · simp only [Option.some.injEq] at hs
      subst hs
      exact ⟨rfl, rfl⟩
    · simp at hs

theorem TopState.hostStep_doneCh {st st1 : TopState} {a : TopAction}
    (hs : st.hostStep a = some st1) (ha : a ≠ .startReturn) :
    st1.svc.doneChClosed = st.svc.doneChClosed ∧ st1.doneCloses = st.doneCloses := by
  cases a
  case start regErr candErr =>
    simp only [TopState.hostStep] at hs
    split at hs
    · simp at hs
    · split at hs
      · simp at hs
      · simp only [Option.some.injEq] at hs
        subst hs
        cases regErr <;> cases candErr <;> exact ⟨rfl, rfl⟩
  all_goals
    simp only [TopState.hostStep] at hs
    exact TopState.step_doneCh hs ha

theorem TopState.hostRun_doneCh {st st1 : TopState} (acts : List TopAction)
    (hr : st.hostRun acts = some st1) (ha : TopAction.startReturn ∉ acts) :
    st1.svc.doneChClosed = st.svc.doneChClosed := by
  induction acts generalizing st with
  | nil =>
    simp only [TopState.hostRun, Option.some.injEq] at hr
    rw [hr]
  | cons a rest ih =>
    simp only [TopState.hostRun] at hr
    cases hs : st.hostStep a with
    | none => simp [hs] at hr
    | some st2 =>
      simp only [hs] at hr
      simp only [List.mem_cons, not_or] at ha
      rw [ih hr ha.2, (TopState.hostStep_doneCh hs (Ne.symm ha.1)).1]

/-- C9 as stated fails: on node `node-1`, `Start` returns early with `registryFailure`
and `Stop` is called and waits on `c.doneCh`; the host then calls `Start` again, this call
runs its goroutines, returns through `Wait` and closes `c.doneCh`, and the waiting `Stop`
gets past its wait and returns. -/
theorem stop_released_by_later_start :
    (TopState.init "node-1").hostRun [.start (some registryFailure) none, .stopCall] =
      some stopAfterFailedStart ∧
    stopAfterFailedStart.start = .failed registryFailure ∧
    stopAfterFailedStart.stopWaiting = 1 ∧ stopAfterFailedStart.stopReturned = 0 ∧
    stopAfterFailedStart.hostRun restartSchedule = some restarted ∧
    restarted.stopWaiting = 0 ∧ restarted.stopReturned = 1 :=
  ⟨rfl, rfl, rfl, rfl, rfl, rfl, rfl⟩

/-- C9 (amended): in every state in which `Start` can be called, a call whose registry
construction or candidate construction fails with `e` returns `e`, launches no goroutine,
registers no watch and leaves `c.doneCh` as it is. A step closes `c.doneCh` only if it is
the return of a call of `Start` through `Wait`, which closes it once (on a closed channel
that step panics instead). Whenever `Start` can be called again no goroutine of the
previous call is left, and `c.doneCh` has been closed at most once. So along every
schedule in which no call of `Start` returns through `Wait`, `c.doneCh` stays open and no
call of `Stop` gets past its wait on it. -/
theorem start_early_return (nodeID : String) (e : GoError) :
    (∀ (st : TopState) (regErr candErr : Option GoError), st.panicked = false →
      st.start ≠ .waiting →
      (regErr = some e ∨ (regErr = none ∧ candErr = some e)) →
      ∃ st1, st.hostStep (.start regErr candErr) = some st1 ∧ st1.start = .failed e ∧
        st1.election = .notLaunched ∧ st1.selfWatch = .notLaunched ∧
        st1.listener = .notLaunched ∧ st1.signal = .notLaunched ∧
        st1.watchLog = st.watchLog ∧ st1.svc.doneChClosed = st.svc.doneChClosed ∧
        st1.doneCloses = st.doneCloses ∧ st1.stopWaiting = st.stopWaiting ∧
        st1.stopReturned = st.stopReturned) ∧
    (∀ (st : TopState) (a : TopAction) (st1 : TopState), st.hostStep a = some st1 →
      (st1.svc.doneChClosed ≠ st.svc.doneChClosed ∨ st1.doneCloses ≠ st.doneCloses) →
      a = .startReturn ∧ (∃ r, st1.start = .returned r) ∧
        st.svc.doneChClosed = false ∧ st1.svc.doneChClosed = true ∧
        st1.doneCloses = st.doneCloses + 1) ∧
    (∀ (st st1 : TopState), st.hostStep .startReturn = some st1 →
      st.svc.doneChClosed = true →
      st1.panicked = true) ∧
    (∀ st, HostReachable nodeID st →
      st.doneCloses ≤ 1 ∧
      (st.start ≠ .waiting →
        st.election.live = 0 ∧ st.selfWatch.live = 0 ∧ st.listener.live = 0 ∧
          st.signal.live = 0)) ∧
    (∀ acts st, (TopState.init nodeID).hostRun acts = some st →
      TopAction.startReturn ∉ acts →
      st.svc.doneChClosed = false ∧ st.stopReturned = 0 ∧
        st.hostStep .stopReturn = none) := by
  refine ⟨?_, ?_, ?_, ?_, ?_⟩
  · intro st regErr candErr hp hw hfail
    have hstep : st.hostStep (.start regErr candErr) = some (Start st.fresh regErr candErr) := by
      simp [TopState.hostStep, hp, hw]
    rcases hfail with h | ⟨h1, h2⟩
    · subst h
      exact ⟨_, hstep, rfl, rfl, rfl, rfl, rfl, rfl, rfl, rfl, rfl, rfl⟩
    · subst h1 h2
      exact ⟨_, hstep, rfl, rfl, rfl, rfl, rfl, rfl, rfl, rfl, rfl, rfl⟩
  · intro st a st1 hs hch
    by_cases ha : a = .startReturn
    · subst ha
      have hp := TopState.hostStep_not_panicked hs
      simp only [TopState.hostStep, TopState.step, hp, Bool.false_eq_true, if_false] at hs
      split at hs
      · rcases StartFinish_cases hs with ⟨_, _, h1, h2⟩ | ⟨h1, h2, h3, h4⟩
        · rcases hch with hch | hch
          · exact absurd h1 hch
          · exact absurd h2 hch
        · exact ⟨rfl, h4, h1, h2, h3⟩
      · simp at hs
    · have := TopState.hostStep_doneCh hs ha
      rcases hch with hch | hch
      · exact absurd this.1 hch
      · exact absurd this.2 hch
  · intro st st1 hs hcl
    have hp := TopState.hostStep_not_panicked hs
    simp only [TopState.hostStep, TopState.step, hp, Bool.false_eq_true, if_false] at hs
    split at hs
    · rcases StartFinish_cases hs with ⟨_, h, _, _⟩ | ⟨h, _⟩
      · exact h
      · simp [hcl] at h
    · simp at hs
  · intro st hr
    have hi := hr.hostInv
    refine ⟨hi.closes.2, ?_⟩
    intro hw
    cases hst : st.start with
    | notCalled =>
      obtain ⟨i1, i2, i3, i4, _⟩ := hi.idle (Or.inl hst)
      simp [i1, i2, i3, i4, ElectionPC.live, SelfWatchPC.live, ListenerPC.live, SignalPC.live]
    | failed e1 =>
      obtain ⟨i1, i2, i3, i4, _⟩ := hi.idle (Or.inr ⟨e1, hst⟩)
      simp [i1, i2, i3, i4, ElectionPC.live, SelfWatchPC.live, ListenerPC.live, SignalPC.live]
    | waiting => exact absurd hst hw
    | returned r =>
      obtain ⟨_, i1, i2, i3, i4⟩ := hi.done r hst
      simp [i1, i2, i3, i4, ElectionPC.live, SelfWatchPC.live, ListenerPC.live, SignalPC.live]
  · intro acts st hrun hn
    have hi := (HostReachable.hostRun .init acts hrun).hostInv
    have hopen : st.svc.doneChClosed = false := by
      rw [TopState.hostRun_doneCh acts hrun hn]
      rfl
    refine ⟨hopen, ?_, ?_⟩
    · by_contra hne
      have := hi.stops (by omega)
      simp [hopen] at this
    · simp only [TopState.hostStep, TopState.step]
      split
      · rfl
      · simp [StopFinish, hopen]

/-- C9 (amended) on node `node-1`, whose registry construction fails with
`registryFailure` and on which `Stop` is called afterwards: no call of `Start` has
returned through `Wait`, `c.doneCh` is open and the waiting `Stop` cannot return. -/
theorem start_early_return_witness :
    (TopState.init "node-1").hostRun [.start (some registryFailure) none, .stopCall] =
      some stopAfterFailedStart ∧
    stopAfterFailedStart.start = .failed registryFailure ∧
    stopAfterFailedStart.stopWaiting = 1 ∧
    (stopAfterFailedStart.svc.doneChClosed = false ∧ stopAfterFailedStart.stopReturned = 0 ∧
      stopAfterFailedStart.hostStep .stopReturn = none) :=
  ⟨rfl, rfl, rfl,
    (start_early_return "node-1" registryFailure).2.2.2.2
      [.start (some registryFailure) none, .stopCall] stopAfterFailedStart rfl (by decide)⟩

/-! ## Claim about the broker health check -/

theorem Context.WithDeadline_deadline (parent : Context) (d : Int) :
    ∃ x, (parent.WithDeadline d).deadline = some x ∧ x ≤ d ∧
      ∀ c, parent.deadline = some c → x ≤ c := by
  unfold Context.WithDeadline
  cases h : parent.deadline with
  | none => exact ⟨d, rfl, le_refl d, by simp⟩
  | some cur =>
    by_cases hlt : cur < d
    · refine ⟨cur, by simp [hlt, h], le_of_lt hlt, ?_⟩
      intro c hc
      simp only [Option.some.injEq] at hc
      omega
    · refine ⟨d, by simp [hlt], le_refl d, ?_⟩
      intro c hc
      simp only [Option.some.injEq] at hc
      omega

/-- C8 (bounded broker probe): for every admin connection, every caller context (with or
without a deadline) and every instant `now` of the call, `checkHealth` returns exactly the
pair that `IsHealthy` returns on the context it is given, and that context has a deadline,
which is at most one second (10^9 ns) after `now` and never later than the caller's. -/
theorem broker_probe_bounded (b : brokerHealthChecker) (ctx : Context) (now : Int) :
    b.checkHealth ctx now = b.admin.IsHealthy (brokerHealthChecker.newCtx ctx now) ∧
    ∃ d, (brokerHealthChecker.newCtx ctx now).deadline = some d ∧
      d ≤ now + 1000000000 ∧ ∀ c, ctx.deadline = some c → d ≤ c := by
  refine ⟨rfl, ?_⟩
  obtain ⟨x, hx, hle, hc⟩ := Context.WithDeadline_deadline ctx (now + timeSecond * 1)
  exact ⟨x, hx, by simpa [timeSecond] using hle, hc⟩

end Metro
